import Mathlib

/-!
Verification of the PwnChain execution engine (`pwnchain_module.py`).

The engine runs a tree of "modules": each module has a command whose output
lines are matched against regex patterns; matches capture variables into a
per-module scope and trigger "on_match" submodules, and after the output is
exhausted the "always" submodules are triggered.  Every module runs in its own
thread registered in a shared thread pool.

The shallow embedding below mirrors the Python source:
- a `Scope` is the `self.var` dict (name-to-string mapping, insertion order,
  update-in-place);
- `resolveTemplate` is Python `str.format(**var)` restricted to the `{name}`
  placeholder form used by the program (`{{`/`}}` escapes included; format
  specs such as `{x:>3}` are treated as part of the looked-up name, and are
  never used by the program's configs);
- each `Module` instance's mutable `self.var` dict is a cell in an explicit
  store (`RunSt.store`); `var.copy()` at `Module.__init__` is modelled by
  allocating a fresh cell whose initial value is the parent's current scope
  overlaid with the child's declared `vars`;
- `runWorker` is `Module.run_worker` for a single node: it returns the event
  trace of the node, the updated store, the list of spawned child tasks
  (Python starts them as threads; we collect them), and the node's fatal
  error, if any (an uncaught Python exception; events produced before the
  error are kept, and nothing after the raise point happens);
- `runPool` drives the whole tree: it processes the task queue in order,
  which is one valid schedule of the concurrent Python execution (each node
  only ever reads and writes its own scope cell, so scope contents are
  schedule independent);
- the external collaborators (the spawned subprocess, `urllib`, `eval`) are
  parameters: `oracle` maps a resolved command to its stdout lines (each line
  carrying its trailing newline, as `proc.stdout` iteration yields them),
  `fetch` maps a URL to fetched bytes, and `evalB` gives the truthiness of
  `eval` on a resolved condition string;
- the `re` library is embedded as the small `Regex` AST (sequences, single
  characters, character ranges and capture groups cover every pattern the
  program's configs and tests use); `re.match` anchors at the start of the
  line and `reMatch` by construction consumes a prefix;
- `joinAll` models `Module.wait_until_complete`: iterating a Python list
  joins elements appended during the iteration, and a child thread is
  appended to the pool by its parent's thread before the parent terminates,
  hence joining a thread makes its children visible to the remaining
  iteration.  `ThreadTree` is the spawn tree of one thread.
-/

/-! ## Scope: the `self.var` dict -/

/-- A module scope: Python dict from variable names to (stringified) values,
in insertion order. -/
abbrev Scope := List (String × String)

/-- Python dict lookup `var[k]`. -/
def lookupVar : Scope → String → Option String
  | [], _ => none
  | (k, v) :: rest, key => if k = key then some v else lookupVar rest key

/-- Python dict update `var[k] = v`: replaces in place, appends if absent. -/
def setVar : Scope → String → String → Scope
  | [], key, val => [(key, val)]
  | (k, v) :: rest, key, val =>
      if k = key then (k, val) :: rest else (k, v) :: setVar rest key val

/-- Apply a list of bindings left to right (`for (k, v) in ...: var[k] = v`). -/
def overlay (s : Scope) (bs : List (String × String)) : Scope :=
  bs.foldl (fun acc kv => setVar acc kv.1 kv.2) s

/-- The scope a child `Module.__init__` builds (lines 47-54): a copy of the
parent's scope with the child's own declared `vars` written over it. -/
def initScope (parent : Scope) (vars : List (String × String)) : Scope :=
  overlay parent vars

/-- The last declared value for a name in a binding list, if any. -/
def lastDecl : List (String × String) → String → Option String
  | [], _ => none
  | (k0, v0) :: bs, k =>
      match lastDecl bs k with
      | some v => some v
      | none => if k0 = k then some v0 else none

/-! ## Errors (uncaught Python exceptions, fatal to one node) -/

/-- Fatal per-node errors of the engine. -/
inductive Err where
  /-- Python `KeyError` from `str.format`: a template references a missing name. -/
  | unresolved (name : String)
  /-- Python `ValueError` from `str.format`: malformed braces in a template. -/
  | badTemplate
  /-- Python `binascii.Error` from `b64decode`: malformed base64 payload. -/
  | badBase64 (content : String)
  /-- Python `IndexError` from `match.group(idx)`: more declared capture names than
  regex groups. -/
  | noSuchGroup
  deriving DecidableEq, Repr

/-! ## Template resolver: Python `str.format(**var)` -/

/-- Left brace and right brace characters. -/
def lbrace : Char := Char.ofNat 123

/-- Right brace character. -/
def rbrace : Char := Char.ofNat 125

/-- Character scanner for `str.format`.  The second argument is `none` when
scanning literal text and `some acc` while inside a placeholder, with `acc`
holding the name characters seen so far in reverse. -/
def resolveAux (var : Scope) : Option (List Char) → List Char → Except Err (List Char)
  | none, [] => .ok []
  | some _, [] => .error .badTemplate
  | none, c :: rest =>
      if c = lbrace then
        match rest with
        | c2 :: rest2 =>
            if c2 = lbrace then (resolveAux var none rest2).map (fun r => lbrace :: r)
            else if c2 = rbrace then
              match lookupVar var "" with
              | none => .error (.unresolved "")
              | some v => (resolveAux var none rest2).map (fun r => v.data ++ r)
            else resolveAux var (some [c2]) rest2
        | [] => .error .badTemplate
      else if c = rbrace then
        match rest with
        | c2 :: rest2 =>
            if c2 = rbrace then (resolveAux var none rest2).map (fun r => rbrace :: r)
            else .error .badTemplate
        | [] => .error .badTemplate
      else (resolveAux var none rest).map (fun r => c :: r)
  | some acc, c :: rest =>
      if c = rbrace then
        match lookupVar var (String.mk acc.reverse) with
        | none => .error (.unresolved (String.mk acc.reverse))
        | some v => (resolveAux var none rest).map (fun r => v.data ++ r)
      else resolveAux var (some (c :: acc)) rest

/-- Python `tpl.format(**var)`: substitute every `{name}` placeholder with the
scope's value, `KeyError` (modelled as `Err.unresolved`) if a name is absent. -/
def resolveTemplate (tpl : String) (var : Scope) : Except Err String :=
  (resolveAux var none tpl.data).map String.mk

/-! ## Bytes: `str.encode()` and `base64.b64decode` -/

/-- UTF-8 encoding of one code point. -/
def utf8Char (n : Nat) : List Nat :=
  if n < 128 then [n]
  else if n < 2048 then [192 + n / 64, 128 + n % 64]
  else if n < 65536 then [224 + n / 4096, 128 + (n / 64) % 64, 128 + n % 64]
  else [240 + n / 262144, 128 + (n / 4096) % 64, 128 + (n / 64) % 64, 128 + n % 64]

/-- Python `s.encode()`: UTF-8 bytes of a string. -/
def strBytes (s : String) : List Nat :=
  s.data.foldr (fun c acc => utf8Char c.toNat ++ acc) []

/-- Value of one base64 alphabet character. -/
def b64val (c : Char) : Option Nat :=
  if 'A' ≤ c ∧ c ≤ 'Z' then some (c.toNat - 65)
  else if 'a' ≤ c ∧ c ≤ 'z' then some (c.toNat - 71)
  else if '0' ≤ c ∧ c ≤ '9' then some (c.toNat + 4)
  else if c = '+' then some 62
  else if c = '/' then some 63
  else none

/-- Decode base64 characters in groups of four, handling `=` padding at the
end.  Returns `none` on malformed input (Python raises `binascii.Error`). -/
def b64chunk : List Char → Option (List Nat)
  | [] => some []
  | [a, b, c, d] =>
      if d = '=' then
        if c = '=' then
          match b64val a, b64val b with
          | some x, some y => some [x * 4 + y / 16]
          | _, _ => none
        else
          match b64val a, b64val b, b64val c with
          | some x, some y, some z => some [x * 4 + y / 16, (y % 16) * 16 + z / 4]
          | _, _, _ => none
      else
        match b64val a, b64val b, b64val c, b64val d with
        | some x, some y, some z, some w =>
            some [x * 4 + y / 16, (y % 16) * 16 + z / 4, (z % 4) * 64 + w]
        | _, _, _, _ => none
  | a :: b :: c :: d :: rest =>
      match b64val a, b64val b, b64val c, b64val d, b64chunk rest with
      | some x, some y, some z, some w, some tail =>
          some ([x * 4 + y / 16, (y % 16) * 16 + z / 4, (z % 4) * 64 + w] ++ tail)
      | _, _, _, _, _ => none
  | _ => none

/-- Python `base64.b64decode` on the well-formed payloads the program uses. -/
def b64decode (s : String) : Option (List Nat) :=
  b64chunk s.data

/-! ## Regex: the fragment of `re` the program's patterns use -/

/-- Compiled regular expression.  `cls lo hi` is a character range such as
`[0-9]`; `group` is a capturing group. -/
inductive Regex where
  | eps
  | chr (c : Char)
  | cls (lo hi : Char)
  | seq (r1 r2 : Regex)
  | group (r : Regex)
  deriving DecidableEq, Repr

/-- Python `pattern.match(line)`: try to match at the start of the line.  On
success returns the consumed prefix, the remaining suffix, and the texts of
the capture groups in opening-paren order (`match.group(1)`, `group(2)`, ...).
The whole line need not be consumed. -/
def reMatch : Regex → List Char → Option (List Char × List Char × List String)
  | .eps, s => some ([], s, [])
  | .chr _, [] => none
  | .chr c, x :: s => if x = c then some ([x], s, []) else none
  | .cls _ _, [] => none
  | .cls lo hi, x :: s => if lo ≤ x ∧ x ≤ hi then some ([x], s, []) else none
  | .seq r1 r2, s =>
      match reMatch r1 s with
      | none => none
      | some (c1, s1, g1) =>
          match reMatch r2 s1 with
          | none => none
          | some (c2, s2, g2) => some (c1 ++ c2, s2, g1 ++ g2)
  | .group r, s =>
      match reMatch r s with
      | none => none
      | some (c, s1, g) => some (c, s1, String.mk c :: g)

/-! ## Node definitions (the config json entries) -/

/-- One entry of a node's `patterns` list (lines 76-84).  The regex source
template is resolved and compiled by the external `re` library before the
output loop starts; `regex` is the compiled result.  `groups` holds the
capture-variable-name templates and `log` the optional log-message template;
both are kept unresolved and are resolved per match (lines 97, 100). -/
structure PatternDef where
  regex : Regex
  groups : List String
  log : Option String
  deriving Repr

/-- One entry of a node's `files` list (lines 153-163). -/
structure FileDef where
  name : String
  type : String
  content : String
  deriving DecidableEq, Repr

/-- A node definition from the config json.  `enabled`/`condition` are the
optional gates, `onMatch`/`always` the two submodule groups (an absent group
is the empty list).  Values of `vars` are already stringified. -/
inductive NodeDef where
  | mk (name : String) (cmd : String) (vars : List (String × String))
       (enabled : Option Bool) (condition : Option String)
       (patterns : List PatternDef) (files : List FileDef)
       (onMatch : List NodeDef) (always : List NodeDef)

/-- Node name template. -/
def NodeDef.name : NodeDef → String
  | .mk n _ _ _ _ _ _ _ _ => n

/-- Node command template. -/
def NodeDef.cmd : NodeDef → String
  | .mk _ c _ _ _ _ _ _ _ => c

/-- Node declared variables. -/
def NodeDef.vars : NodeDef → List (String × String)
  | .mk _ _ v _ _ _ _ _ _ => v

/-- Node enabled flag, if present. -/
def NodeDef.enabled : NodeDef → Option Bool
  | .mk _ _ _ e _ _ _ _ _ => e

/-- Node condition expression template, if present. -/
def NodeDef.condition : NodeDef → Option String
  | .mk _ _ _ _ c _ _ _ _ => c

/-- Node pattern list. -/
def NodeDef.patterns : NodeDef → List PatternDef
  | .mk _ _ _ _ _ p _ _ _ => p

/-- Node file list. -/
def NodeDef.files : NodeDef → List FileDef
  | .mk _ _ _ _ _ _ f _ _ => f

/-- Node `on_match` submodule group. -/
def NodeDef.onMatch : NodeDef → List NodeDef
  | .mk _ _ _ _ _ _ _ om _ => om

/-- Node `always` submodule group. -/
def NodeDef.always : NodeDef → List NodeDef
  | .mk _ _ _ _ _ _ _ _ al => al

/-! ## Run state and events -/

/-- Global mutable state of one tree execution: the store of scope cells (one
cell per `Module` instance, holding its `self.var` dict) and the counter used
to name ephemeral temp files uniquely. -/
structure RunSt where
  store : List Scope
  nfiles : Nat
  deriving Repr

/-- Contents of scope cell `i`. -/
def readScope (st : RunSt) (i : Nat) : Scope :=
  st.store.getD i []

/-- Overwrite scope cell `i`. -/
def writeScope (st : RunSt) (i : Nat) (s : Scope) : RunSt :=
  ⟨st.store.set i s, st.nfiles⟩

/-- Allocate a fresh scope cell (a `Module.__init__` call copying its `var`
argument); returns the new state and the new cell's index. -/
def allocScope (st : RunSt) (s : Scope) : RunSt × Nat :=
  (⟨st.store ++ [s], st.nfiles⟩, st.store.length)

/-- The unique name `NamedTemporaryFile` gives to the `n`-th temp file. -/
def tmpName (n : Nat) : String :=
  "/tmp/pwnchain" ++ toString n

/-- Observable events of one tree execution, tagged with the scope cell id of
the module instance that produced them. -/
inductive Ev where
  /-- The node was gated off by `should_not_run` (debug log, lines 118/125). -/
  | skipped (cid : Nat)
  /-- A scope binding `self.var[name] = value` (file path, line 157, or
  capture, line 97). -/
  | bound (cid : Nat) (name : String) (value : String)
  /-- Final content of an ephemeral file (lines 155-163). -/
  | fileWrite (cid : Nat) (path : String) (content : List Nat)
  /-- The resolved command was spawned (line 91 via `exec_cmd`). -/
  | exec (cid : Nat) (cmd : String)
  /-- One stdout line was consumed from the stream (lines 91, 140-144). -/
  | outLine (cid : Nat) (line : String)
  /-- An info-level log of a pattern's resolved `log` template (line 100). -/
  | info (cid : Nat) (msg : String)
  /-- A `run_submodules(group)` call, with the module's scope at that moment
  (lines 101, 103, 106). -/
  | trigger (cid : Nat) (group : String) (snap : Scope)
  /-- A child module was constructed and its thread started (lines 110-111),
  with the child's cell id and initial scope. -/
  | spawned (parent : Nat) (child : Nat) (childName : String) (initialScope : Scope)
  /-- The node's thread died on an uncaught exception (silently, in Python). -/
  | failed (cid : Nat) (e : Err)
  deriving DecidableEq, Repr

/-- A started child module waiting in the thread pool: its definition and its
scope cell. -/
structure SpawnedTask where
  cfg : NodeDef
  cid : Nat

/-! ## The engine (`Module` methods) -/

/-- Model of `Module.should_not_run` (lines 114-127): skip when the `enabled` flag is
present and false, else when the resolved `condition` template evaluates
falsy under `eval` (modelled by `evalB`).  Template resolution of the
condition can raise (fatal to the node). -/
def shouldNotRun (evalB : String → Bool) (cfg : NodeDef) (var : Scope) :
    Except Err Bool :=
  match cfg.enabled with
  | some false => .ok true
  | _ =>
      match cfg.condition with
      | some condTpl =>
          match resolveTemplate condTpl var with
          | .error e => .error e
          | .ok cond => if evalB cond then .ok false else .ok true
      | none => .ok false

/-- Bytes written into one ephemeral file (lines 158-163): raw encoded bytes
for `text`, decoded bytes for `base64`, fetched bytes for `wget`; any other
type falls through the `if`/`elif` chain and nothing is written.  The content
string is used verbatim: `unpack_files` never resolves it as a template. -/
def fileBytes (fetch : String → List Nat) (f : FileDef) : Except Err (List Nat) :=
  if f.type = "text" then .ok (strBytes f.content)
  else if f.type = "base64" then
    match b64decode f.content with
    | some bs => .ok bs
    | none => .error (.badBase64 f.content)
  else if f.type = "wget" then .ok (fetch f.content)
  else .ok []

/-- Model of `Module.unpack_files` (lines 149-163) for the module at cell `cid`: for
each file definition create a temp file, bind its path into the scope under
the declared name, then write the content.  A decode failure raises after the
binding; events produced before the failure are kept. -/
def unpackFiles (fetch : String → List Nat) (cid : Nat) :
    List FileDef → RunSt → List Ev × RunSt × Option Err
  | [], st => ([], st, none)
  | f :: fs, st =>
      let path := tmpName st.nfiles
      let var1 := setVar (readScope st cid) f.name path
      let st1 := writeScope ⟨st.store, st.nfiles + 1⟩ cid var1
      match fileBytes fetch f with
      | .error e => ([.bound cid f.name path, .failed cid e], st1, some e)
      | .ok bs =>
          let (evs, st2, err) := unpackFiles fetch cid fs st1
          (.bound cid f.name path :: .fileWrite cid path bs :: evs, st2, err)

/-- The capture-binding loop of one match (lines 95-98): for each declared
group-name template, resolve it against the current scope (which already
holds the bindings made earlier in this same match) and bind the next
positional group text.  Running out of regex groups raises `IndexError`;
resolution of a name template can raise `KeyError`.  Partial bindings made
before an error are kept. -/
def bindGroups (cid : Nat) :
    List String → List String → Scope → Scope × List Ev × Option Err
  | [], _, var => (var, [], none)
  | _ :: _, [], var => (var, [], some .noSuchGroup)
  | gt :: gts, txt :: txts, var =>
      match resolveTemplate gt var with
      | .error e => (var, [], some e)
      | .ok name =>
          let var1 := setVar var name txt
          let (var2, evs, err) := bindGroups cid gts txts var1
          (var2, .bound cid name txt :: evs, err)

/-- Model of `Module.run_submodules` for one group (lines 106-111): for each child
definition, construct a child `Module` — allocating a fresh scope cell whose
initial value is a copy of the parent's scope overlaid with the child's
declared `vars` (`Module.__init__`, lines 47-54) — resolve the child's name
template for its logger (line 55, can raise, aborting the remaining spawns of
the group), and start the child thread. -/
def spawnGroup (parentCid : Nat) (parentVar : Scope) :
    List NodeDef → RunSt → RunSt × List Ev × List SpawnedTask × Option Err
  | [], st => (st, [], [], none)
  | k :: ks, st =>
      let childVar := initScope parentVar k.vars
      let (st1, ccid) := allocScope st childVar
      match resolveTemplate k.name childVar with
      | .error e => (st1, [.failed parentCid e], [], some e)
      | .ok cname =>
          let (st2, evs, ts, err) := spawnGroup parentCid parentVar ks st1
          (st2, .spawned parentCid ccid cname childVar :: evs,
           ⟨k, ccid⟩ :: ts, err)

/-- The inner pattern loop for one output line (lines 92-101): test each
pattern in declared order; on a match bind the captures, emit the resolved
log message if one is declared, and trigger the `on_match` group with the
scope as mutated by this match. -/
def procPats (cid : Nat) (kids : List NodeDef) (line : String) :
    List PatternDef → RunSt → List Ev × RunSt × List SpawnedTask × Option Err
  | [], st => ([], st, [], none)
  | p :: ps, st =>
      match reMatch p.regex line.data with
      | none => procPats cid kids line ps st
      | some (_, _, gs) =>
          let (var1, evsB, errB) := bindGroups cid p.groups gs (readScope st cid)
          let st1 := writeScope st cid var1
          match errB with
          | some e => (evsB ++ [.failed cid e], st1, [], some e)
          | none =>
              let logRes : List Ev × Option Err :=
                match p.log with
                | none => ([], none)
                | some tpl =>
                    match resolveTemplate tpl var1 with
                    | .error e => ([], some e)
                    | .ok msg => ([.info cid msg], none)
              match logRes with
              | (_, some e) => (evsB ++ [.failed cid e], st1, [], some e)
              | (evsLog, none) =>
                  let (st2, evsS, ts, errS) :=
                    spawnGroup cid (readScope st1 cid) kids st1
                  match errS with
                  | some e =>
                      (evsB ++ evsLog ++
                         .trigger cid "on_match" (readScope st1 cid) :: evsS,
                       st2, ts, some e)
                  | none =>
                      let (evsR, st3, tsR, errR) := procPats cid kids line ps st2
                      (evsB ++ evsLog ++
                         .trigger cid "on_match" (readScope st1 cid) :: evsS ++ evsR,
                       st3, ts ++ tsR, errR)

/-- The output loop (line 91): consume the stream line by line, running the
pattern loop on each line.  An exception raised while processing a line
propagates and stops consumption; lines not yet produced are never read. -/
def procLines (cid : Nat) (kids : List NodeDef) (pats : List PatternDef) :
    List String → RunSt → List Ev × RunSt × List SpawnedTask × Option Err
  | [], st => ([], st, [], none)
  | l :: ls, st =>
      let (evsP, st1, tsP, errP) := procPats cid kids l pats st
      match errP with
      | some e => (.outLine cid l :: evsP, st1, tsP, some e)
      | none =>
          let (evsR, st2, tsR, errR) := procLines cid kids pats ls st1
          (.outLine cid l :: evsP ++ evsR, st2, tsP ++ tsR, errR)

/-- Model of `Module.run_worker` (lines 68-103) for the module at cell `cid`: gate,
unpack files, resolve the command, stream its output through the pattern
loop, then trigger the `always` group.  There is no exception handler: any
error aborts the remainder of the body (in particular, an error raised
before line 103 means `run_submodules("always", ...)` is never reached), and
the thread dies silently with the events produced so far. -/
def runWorker (evalB : String → Bool) (fetch : String → List Nat)
    (oracle : String → List String) (cfg : NodeDef) (cid : Nat) (st : RunSt) :
    List Ev × RunSt × List SpawnedTask × Option Err :=
  match shouldNotRun evalB cfg (readScope st cid) with
  | .error e => ([.failed cid e], st, [], some e)
  | .ok true => ([.skipped cid], st, [], none)
  | .ok false =>
      let (evsF, st1, errF) := unpackFiles fetch cid cfg.files st
      match errF with
      | some e => (evsF, st1, [], some e)
      | none =>
          match resolveTemplate cfg.cmd (readScope st1 cid) with
          | .error e => (evsF ++ [.failed cid e], st1, [], some e)
          | .ok cmd =>
              let (evsL, st2, tsL, errL) :=
                procLines cid cfg.onMatch cfg.patterns (oracle cmd) st1
              match errL with
              | some e => (evsF ++ .exec cid cmd :: evsL, st2, tsL, some e)
              | none =>
                  let (st3, evsA, tsA, errA) :=
                    spawnGroup cid (readScope st2 cid) cfg.always st2
                  (evsF ++ .exec cid cmd :: evsL ++
                     .trigger cid "always" (readScope st2 cid) :: evsA,
                   st3, tsL ++ tsA, errA)

/-- Run every task in the pool, in registration order, collecting the events
of all modules.  This is one valid schedule of the concurrent execution: each
module only reads and writes its own scope cell, so the stores it observes
are schedule independent.  A task's fatal error kills only that task's
thread (Python prints and discards it); the pool goes on.  `fuel` bounds the
number of tasks processed; `none` means the bound was hit. -/
def runPool (evalB : String → Bool) (fetch : String → List Nat)
    (oracle : String → List String) :
    Nat → List SpawnedTask → RunSt → Option (List Ev × RunSt)
  | _, [], st => some ([], st)
  | 0, _ :: _, _ => none
  | fuel + 1, t :: rest, st =>
      let (evs, st1, spw, _) := runWorker evalB fetch oracle t.cfg t.cid st
      match runPool evalB fetch oracle fuel (rest ++ spw) st1 with
      | none => none
      | some (evs2, st2) => some (evs ++ evs2, st2)

/-- Whole-tree execution: construct the root module over an empty inherited
scope (a top-level `Module(cfg=...)` call) and drain the pool. -/
def runTree (evalB : String → Bool) (fetch : String → List Nat)
    (oracle : String → List String) (fuel : Nat) (cfg : NodeDef) :
    Option (List Ev × RunSt) :=
  runPool evalB fetch oracle fuel [⟨cfg, 0⟩] ⟨[initScope [] cfg.vars], 0⟩

/-! ## The join model (`Module.wait_until_complete`, lines 166-170)

`wait_until_complete` iterates the shared `thread_pool` list and joins each
thread.  A Python list iterator re-checks the length at each step, so
elements appended while iterating are visited.  A child thread is started and
appended by its parent's thread (lines 63-65, called from `run_submodules`),
hence strictly before the parent terminates; since `join(parent)` returns
only after the parent terminated, every child of an already-joined thread is
in the list by the time the iterator moves on.  `joinAll` models this loop:
the queue is the not-yet-visited suffix of the pool, and visiting a thread
makes its children visible. -/

/-- The spawn tree of one thread: the threads it (transitively) starts. -/
inductive ThreadTree where
  | node : List ThreadTree → ThreadTree

/-- Direct children of a thread. -/
def ThreadTree.children : ThreadTree → List ThreadTree
  | .node cs => cs

mutual
/-- All nodes of a spawn tree, the root included. -/
def subNodes : ThreadTree → List ThreadTree
  | .node cs => .node cs :: subForest cs

/-- All nodes of a list of spawn trees. -/
def subForest : List ThreadTree → List ThreadTree
  | [] => []
  | t :: ts => subNodes t ++ subForest ts
end

/-- The join loop of `wait_until_complete`: visit the pool in order; once a
thread is joined, the children it appended are part of the remaining
iteration.  Returns the list of joined threads, or `none` when the step
bound `fuel` was exhausted before the pool drained. -/
def joinAll : Nat → List ThreadTree → Option (List ThreadTree)
  | _, [] => some []
  | 0, _ :: _ => none
  | fuel + 1, t :: rest =>
      match joinAll fuel (rest ++ t.children) with
      | none => none
      | some visited => some (t :: visited)

/-! ## Trace observations used by the theorems -/

/-- Count the `run_submodules(g)` calls of module `cid` in a trace. -/
def countTrigger (cid : Nat) (g : String) (evs : List Ev) : Nat :=
  (evs.filter (fun e =>
    match e with
    | .trigger c g2 _ => c == cid && g2 == g
    | _ => false)).length

/-- Count the stdout lines module `cid` consumed in a trace. -/
def countOut (cid : Nat) (evs : List Ev) : Nat :=
  (evs.filter (fun e =>
    match e with
    | .outLine c _ => c == cid
    | _ => false)).length

/-- The scope bindings module `cid` performed in a trace, in order. -/
def boundsOf (cid : Nat) (evs : List Ev) : List (String × String) :=
  evs.filterMap (fun e =>
    match e with
    | .bound c n v => if c = cid then some (n, v) else none
    | _ => none)

/-- The value of the last binding of name `n` by module `cid` in a trace. -/
def lastBound (cid : Nat) (n : String) (evs : List Ev) : Option String :=
  lastDecl (boundsOf cid evs) n

/-- Number of successful pattern-match occurrences over an output-line list:
for each line, every pattern whose compiled regex matches at the start of the
line counts as one occurrence. -/
def matchCount (pats : List PatternDef) (lines : List String) : Nat :=
  (lines.map (fun l =>
    (pats.filter (fun p => (reMatch p.regex l.data).isSome)).length)).sum

/-! ## Concrete fixtures (from the repository's unit test `TestModule.setUp`) -/

/-- Compiled form of the test pattern `(fo)o`. -/
def reFoo : Regex :=
  .seq (.group (.seq (.chr 'f') (.chr 'o'))) (.chr 'o')

/-- Compiled form of the test pattern `(fo[0-9])[0-9]`. -/
def reFo9 : Regex :=
  .seq (.group (.seq (.seq (.chr 'f') (.chr 'o')) (.cls '0' '9'))) (.cls '0' '9')

/-- The unit-test configuration of `TestModule.setUp` (file definitions
omitted where a scenario does not need them). -/
def exCfg : NodeDef :=
  .mk "unittest" "echo {var1}" [("var1", "foo")] none none
    [⟨reFoo, ["var2"], some "{var2}"⟩] []
    [.mk "on-match" "echo {var2}" [] none none [] [] [] []]
    [.mk "always" "echo {var2}{var3}" [("var3", "42")] none none
       [⟨reFo9, ["var4"], some "{var4}"⟩] [] [] []]

/-- Stdout lines of the `echo` commands the unit-test configuration spawns. -/
def exOracle : String → List String := fun c =>
  if c = "echo foo" then ["foo\n"]
  else if c = "echo fo" then ["fo\n"]
  else if c = "echo fo42" then ["fo42\n"]
  else []

/-- A node whose single pattern matches but whose capture-variable-name
template `{missing}` cannot be resolved, with a nonempty `always` group. -/
def midErrCfg : NodeDef :=
  .mk "n" "c" [] none none [⟨.group (.chr 'f'), ["{missing}"], none⟩] []
    [] [.mk "kid" "k" [] none none [] [] [] []]

/-- The values carried by the `bound` events of a trace, in order. -/
def boundVals (evs : List Ev) : List String :=
  evs.filterMap (fun e =>
    match e with
    | .bound _ _ v => some v
    | _ => none)

/-- Every `run_submodules` call of module `cid` in the trace receives the
module scope as mutated by all bindings made before that call: the snapshot
of a trigger event equals the initial scope overlaid with the bindings of the
trace prefix before it. -/
def TriggerSnapsOK (cid : Nat) (init : Scope) (evs : List Ev) : Prop :=
  ∀ pre g σ post, evs = pre ++ Ev.trigger cid g σ :: post →
    σ = overlay init (boundsOf cid pre)

/-! ## Basic scope lemmas -/

theorem lookupVar_setVar_self (s : Scope) (k v : String) :
    lookupVar (setVar s k v) k = some v := by
  induction s with
  | nil => simp [setVar, lookupVar]
  | cons kv rest ih =>
      obtain ⟨k0, v0⟩ := kv
      by_cases h : k0 = k
      · simp [setVar, lookupVar, h]
      · simp [setVar, lookupVar, h, ih]

theorem lookupVar_setVar_ne (s : Scope) (k v k2 : String) (h : k2 ≠ k) :
    lookupVar (setVar s k v) k2 = lookupVar s k2 := by
  have h2 : ¬ (k = k2) := fun hh => h hh.symm
  induction s with
  | nil => simp [setVar, lookupVar, h2]
  | cons kv rest ih =>
      obtain ⟨k0, v0⟩ := kv
      by_cases h0 : k0 = k
      · subst h0
        simp [setVar, lookupVar, h2]
      · simp [setVar, lookupVar, h0, ih]

theorem overlay_nil (s : Scope) : overlay s [] = s := rfl

theorem overlay_cons (s : Scope) (b : String × String) (bs : List (String × String)) :
    overlay s (b :: bs) = overlay (setVar s b.1 b.2) bs := rfl

theorem overlay_append (s : Scope) (b1 b2 : List (String × String)) :
    overlay s (b1 ++ b2) = overlay (overlay s b1) b2 := by
  simp [overlay, List.foldl_append]

theorem lookupVar_overlay (bs : List (String × String)) (s : Scope) (k : String) :
    lookupVar (overlay s bs) k =
      match lastDecl bs k with
      | some v => some v
      | none => lookupVar s k := by
  induction bs generalizing s with
  | nil => simp [overlay, lastDecl]
  | cons b bs ih =>
      obtain ⟨k0, v0⟩ := b
      rw [overlay_cons, ih]
      cases hl : lastDecl bs k with
      | some v => simp [lastDecl, hl]
      | none =>
          by_cases h0 : k0 = k
          · subst h0
            simp [lastDecl, hl, lookupVar_setVar_self]
          · simp [lastDecl, hl, h0, lookupVar_setVar_ne s k0 v0 k (fun hh => h0 hh.symm)]


theorem reMatch_consumes (r : Regex) (s c s1 : List Char) (g : List String)
    (h : reMatch r s = some (c, s1, g)) : s = c ++ s1 := by
  induction r generalizing s c s1 g with
  | eps =>
      simp [reMatch] at h
      obtain ⟨hc, hs, hg⟩ := h
      subst hc; subst hs
      simp
  | chr c0 =>
      cases s with
      | nil => simp [reMatch] at h
      | cons x xs =>
          by_cases hx : x = c0
          · simp [reMatch, hx] at h
            obtain ⟨hc, hs, hg⟩ := h
            subst hc; subst hs
            simp [hx]
          · simp [reMatch, hx] at h
  | cls lo hi =>
      cases s with
      | nil => simp [reMatch] at h
      | cons x xs =>
          by_cases hx : lo ≤ x ∧ x ≤ hi
          · simp [reMatch, hx] at h
            obtain ⟨hc, hs, hg⟩ := h
            subst hc; subst hs
            simp
          · simp [reMatch, hx] at h
  | seq r1 r2 ih1 ih2 =>
      cases h1 : reMatch r1 s with
      | none => simp [reMatch, h1] at h
      | some out1 =>
          obtain ⟨c1, s1a, g1⟩ := out1
          cases h2 : reMatch r2 s1a with
          | none => simp [reMatch, h1, h2] at h
          | some out2 =>
              obtain ⟨c2, s2a, g2⟩ := out2
              simp [reMatch, h1, h2] at h
              obtain ⟨hc, hs, hg⟩ := h
              subst hc; subst hs
              rw [ih1 s c1 s1a g1 h1, ih2 s1a c2 s2a g2 h2]
              simp
  | group r ih =>
      cases h1 : reMatch r s with
      | none => simp [reMatch, h1] at h
      | some out1 =>
          obtain ⟨c1, s1a, g1⟩ := out1
          simp [reMatch, h1] at h
          obtain ⟨hc, hs, hg⟩ := h
          subst hc; subst hs
          exact ih _ _ _ _ h1

/-! ## Store lemmas -/

theorem readScope_writeScope_self (st : RunSt) (i : Nat) (s : Scope)
    (h : i < st.store.length) : readScope (writeScope st i s) i = s := by
  simp [readScope, writeScope, List.getD_eq_getElem?_getD, List.getElem?_set_self h]

theorem readScope_writeScope_ne (st : RunSt) (i j : Nat) (s : Scope)
    (h : j ≠ i) : readScope (writeScope st i s) j = readScope st j := by
  simp [readScope, writeScope, List.getD_eq_getElem?_getD,
    List.getElem?_set_ne (fun hh => h hh.symm)]

theorem length_writeScope (st : RunSt) (i : Nat) (s : Scope) :
    (writeScope st i s).store.length = st.store.length := by
  simp [writeScope]

theorem nfiles_writeScope (st : RunSt) (i : Nat) (s : Scope) :
    (writeScope st i s).nfiles = st.nfiles := rfl

theorem readScope_allocScope_lt (st : RunSt) (s : Scope) (j : Nat)
    (h : j < st.store.length) : readScope (allocScope st s).1 j = readScope st j := by
  simp [readScope, allocScope, List.getD_eq_getElem?_getD, List.getElem?_append, h]

theorem readScope_allocScope_new (st : RunSt) (s : Scope) :
    readScope (allocScope st s).1 (allocScope st s).2 = s := by
  simp [readScope, allocScope, List.getD_eq_getElem?_getD, List.getElem?_concat_length]

theorem length_allocScope (st : RunSt) (s : Scope) :
    (allocScope st s).1.store.length = st.store.length + 1 := by
  simp [allocScope]

theorem cid_allocScope (st : RunSt) (s : Scope) :
    (allocScope st s).2 = st.store.length := rfl

/-! ## Event-count helper lemmas -/

theorem countTrigger_append (cid : Nat) (g : String) (e1 e2 : List Ev) :
    countTrigger cid g (e1 ++ e2) = countTrigger cid g e1 + countTrigger cid g e2 := by
  simp [countTrigger, List.filter_append]

theorem countOut_append (cid : Nat) (e1 e2 : List Ev) :
    countOut cid (e1 ++ e2) = countOut cid e1 + countOut cid e2 := by
  simp [countOut, List.filter_append]

theorem boundsOf_append (cid : Nat) (e1 e2 : List Ev) :
    boundsOf cid (e1 ++ e2) = boundsOf cid e1 ++ boundsOf cid e2 := by
  simp [boundsOf]

theorem countTrigger_eq_zero (cid : Nat) (g : String) (evs : List Ev)
    (h : ∀ c g2 σ, Ev.trigger c g2 σ ∈ evs → ¬(c = cid ∧ g2 = g)) :
    countTrigger cid g evs = 0 := by
  simp only [countTrigger, List.length_eq_zero, List.filter_eq_nil_iff]
  intro e he
  cases e with
  | trigger c g2 σ =>
      simp only [Bool.and_eq_true, beq_iff_eq]
      exact fun hh => h c g2 σ he ⟨hh.1, hh.2⟩
  | skipped c => simp
  | bound c n v => simp
  | fileWrite c p ct => simp
  | exec c cm => simp
  | outLine c l => simp
  | info c m => simp
  | spawned p c n i => simp
  | failed c e => simp

theorem countOut_eq_zero (cid : Nat) (evs : List Ev)
    (h : ∀ c l, Ev.outLine c l ∈ evs → c ≠ cid) :
    countOut cid evs = 0 := by
  simp only [countOut, List.length_eq_zero, List.filter_eq_nil_iff]
  intro e he
  cases e with
  | outLine c l => simpa using h c l he
  | skipped c => simp
  | bound c n v => simp
  | fileWrite c p ct => simp
  | exec c cm => simp
  | info c m => simp
  | trigger c g σ => simp
  | spawned p c n i => simp
  | failed c e => simp

theorem boundsOf_eq_nil (cid : Nat) (evs : List Ev)
    (h : ∀ c n v, Ev.bound c n v ∈ evs → c ≠ cid) :
    boundsOf cid evs = [] := by
  simp only [boundsOf, List.filterMap_eq_nil_iff]
  intro e he
  cases e with
  | bound c n v => simpa using h c n v he
  | skipped c => simp
  | fileWrite c p ct => simp
  | exec c cm => simp
  | outLine c l => simp
  | info c m => simp
  | trigger c g σ => simp
  | spawned p c n i => simp
  | failed c e => simp

/-! ## `spawnGroup` lemmas -/

theorem spawnGroup_spec (parentCid : Nat) (σ : Scope) :
    ∀ (kids : List NodeDef) (st st2 : RunSt) (evs : List Ev)
      (ts : List SpawnedTask) (err : Option Err),
      spawnGroup parentCid σ kids st = (st2, evs, ts, err) →
      st.store.length ≤ st2.store.length ∧
      st2.nfiles = st.nfiles ∧
      (∀ j, j < st.store.length → readScope st2 j = readScope st j) ∧
      (∀ t, t ∈ ts → st.store.length ≤ t.cid ∧ t.cid < st2.store.length ∧
         readScope st2 t.cid = initScope σ t.cfg.vars) := by
  intro kids
  induction kids with
  | nil =>
      intro st st2 evs ts err h
      simp only [spawnGroup] at h
      simp only [Prod.mk.injEq] at h
      obtain ⟨h1, h2, h3, h4⟩ := h
      subst h1; subst h2; subst h3; subst h4
      exact ⟨le_refl _, rfl, fun j hj => rfl, by simp⟩
  | cons k ks ih =>
      intro st st2 evs ts err h
      simp only [spawnGroup] at h
      cases hr : resolveTemplate k.name (initScope σ k.vars) with
      | error e =>
          rw [hr] at h
          simp only [Prod.mk.injEq] at h
          obtain ⟨h1, h2, h3, h4⟩ := h
          subst h1; subst h2; subst h3; subst h4
          refine ⟨?_, rfl, ?_, by simp⟩
          · simp [allocScope]
          · intro j hj
            exact readScope_allocScope_lt st (initScope σ k.vars) j hj
      | ok cname =>
          rw [hr] at h
          rcases hrec : spawnGroup parentCid σ ks (allocScope st (initScope σ k.vars)).1
            with ⟨st2r, evsr, tsr, errr⟩
          rw [hrec] at h
          simp only [Prod.mk.injEq] at h
          obtain ⟨h1, h2, h3, h4⟩ := h
          subst h1; subst h2; subst h3; subst h4
          obtain ⟨ihl, ihn, ihr, iht⟩ := ih _ _ _ _ _ hrec
          have hlen1 : (allocScope st (initScope σ k.vars)).1.store.length
              = st.store.length + 1 := length_allocScope _ _
          refine ⟨by omega, by rw [ihn]; rfl, ?_, ?_⟩
          · intro j hj
            rw [ihr j (by omega), readScope_allocScope_lt st _ j hj]
          · intro t ht
            rcases List.mem_cons.mp ht with hh | hh
            · subst hh
              simp only [cid_allocScope]
              refine ⟨le_refl _, by omega, ?_⟩
              rw [ihr st.store.length (by omega)]
              exact readScope_allocScope_new st (initScope σ k.vars)
            · obtain ⟨ha, hb, hc⟩ := iht t hh
              exact ⟨by omega, hb, hc⟩

theorem spawnGroup_events (parentCid : Nat) (σ : Scope) :
    ∀ (kids : List NodeDef) (st st2 : RunSt) (evs : List Ev)
      (ts : List SpawnedTask) (err : Option Err),
      spawnGroup parentCid σ kids st = (st2, evs, ts, err) →
      ∀ e, e ∈ evs → (∃ p c n i, e = Ev.spawned p c n i) ∨ (∃ e2, e = Ev.failed parentCid e2) := by
  intro kids
  induction kids with
  | nil =>
      intro st st2 evs ts err h
      simp only [spawnGroup] at h
      simp only [Prod.mk.injEq] at h
      obtain ⟨h1, h2, h3, h4⟩ := h
      subst h2
      simp
  | cons k ks ih =>
      intro st st2 evs ts err h
      simp only [spawnGroup] at h
      cases hr : resolveTemplate k.name (initScope σ k.vars) with
      | error e =>
          rw [hr] at h
          simp only [Prod.mk.injEq] at h
          obtain ⟨h1, h2, h3, h4⟩ := h
          subst h2
          intro e2 he2
          simp at he2
          subst he2
          exact Or.inr ⟨_, rfl⟩
      | ok cname =>
          rw [hr] at h
          rcases hrec : spawnGroup parentCid σ ks (allocScope st (initScope σ k.vars)).1
            with ⟨st2r, evsr, tsr, errr⟩
          rw [hrec] at h
          simp only [Prod.mk.injEq] at h
          obtain ⟨h1, h2, h3, h4⟩ := h
          subst h2
          intro e2 he2
          rcases List.mem_cons.mp he2 with hh | hh
          · subst hh
            exact Or.inl ⟨_, _, _, _, rfl⟩
          · exact ih _ _ _ _ _ hrec e2 hh

/-! ## Trigger-snapshot invariant lemmas -/

theorem snapsOK_of_no_trigger (cid : Nat) (init : Scope) (evs : List Ev)
    (h : ∀ g σ, Ev.trigger cid g σ ∉ evs) : TriggerSnapsOK cid init evs := by
  intro pre g σ post heq
  exact absurd (heq ▸ (List.mem_append.mpr (Or.inr (List.mem_cons_self _ _)))) (h g σ)

theorem snapsOK_single_trigger (cid : Nat) (init : Scope) (g : String) :
    TriggerSnapsOK cid init [Ev.trigger cid g init] := by
  intro pre g2 σ post heq
  cases pre with
  | nil =>
      rw [List.nil_append] at heq
      injection heq with h1 h2
      injection h1 with hc hg hs
      subst hs
      simp [boundsOf, overlay]
  | cons a pre2 =>
      rw [List.cons_append] at heq
      injection heq with h1 h2
      simp at h2

theorem snapsOK_append (cid : Nat) (init : Scope) (e1 e2 : List Ev)
    (h1 : TriggerSnapsOK cid init e1)
    (h2 : TriggerSnapsOK cid (overlay init (boundsOf cid e1)) e2) :
    TriggerSnapsOK cid init (e1 ++ e2) := by
  intro pre g σ post heq
  rcases List.append_eq_append_iff.mp heq with ⟨a2, ha, hb⟩ | ⟨c2, hc, hd⟩
  · -- pre = e1 ++ a2 and e2 = a2 ++ trigger :: post
    rw [h2 a2 g σ post hb, ha, boundsOf_append, overlay_append]
  · -- e1 = pre ++ c2 and trigger :: post = c2 ++ e2
    cases c2 with
    | nil =>
        rw [List.append_nil] at hc
        rw [List.nil_append] at hd
        rw [h2 [] g σ post (by rw [List.nil_append]; exact hd.symm), hc]
        simp [boundsOf, overlay]
    | cons x c3 =>
        rw [List.cons_append] at hd
        injection hd with hx hpost
        rw [← hx] at hc
        exact h1 pre g σ c3 hc

/-! ## `bindGroups` lemmas -/

theorem bindGroups_spec (cid : Nat) :
    ∀ (gts txts : List String) (var var2 : Scope) (evs : List Ev) (err : Option Err),
      bindGroups cid gts txts var = (var2, evs, err) →
      var2 = overlay var (boundsOf cid evs) ∧
      (∀ e, e ∈ evs → ∃ n v, e = Ev.bound cid n v) ∧
      (err = none → boundVals evs = txts.take gts.length ∧ evs.length = gts.length) := by
  intro gts
  induction gts with
  | nil =>
      intro txts var var2 evs err h
      simp only [bindGroups, Prod.mk.injEq] at h
      obtain ⟨h1, h2, h3⟩ := h
      subst h1; subst h2; subst h3
      exact ⟨by simp [boundsOf, overlay], by simp, fun _ => by simp [boundVals]⟩
  | cons gt gts ih =>
      intro txts var var2 evs err h
      cases txts with
      | nil =>
          simp only [bindGroups, Prod.mk.injEq] at h
          obtain ⟨h1, h2, h3⟩ := h
          subst h1; subst h2
          exact ⟨by simp [boundsOf, overlay], by simp,
            fun hn => absurd (h3 ▸ hn) (by simp)⟩
      | cons txt txts2 =>
          simp only [bindGroups] at h
          cases hr : resolveTemplate gt var with
          | error e =>
              rw [hr] at h
              simp only [Prod.mk.injEq] at h
              obtain ⟨h1, h2, h3⟩ := h
              subst h1; subst h2
              exact ⟨by simp [boundsOf, overlay], by simp,
                fun hn => absurd (h3 ▸ hn) (by simp)⟩
          | ok name =>
              simp only [hr] at h
              rcases hrec : bindGroups cid gts txts2 (setVar var name txt)
                with ⟨var2r, evsr, errr⟩
              rw [hrec] at h
              simp only [Prod.mk.injEq] at h
              obtain ⟨h1, h2, h3⟩ := h
              subst h1; subst h2; subst h3
              obtain ⟨ih1, ih2, ih3⟩ := ih txts2 (setVar var name txt) _ _ _ hrec
              refine ⟨?_, ?_, ?_⟩
              · rw [ih1]
                simp [boundsOf, overlay]
              · intro e he
                rcases List.mem_cons.mp he with hh | hh
                · exact ⟨name, txt, hh⟩
                · exact ih2 e hh
              · intro hn
                obtain ⟨ihv, ihl⟩ := ih3 hn
                constructor
                · simp [boundVals] at ihv ⊢
                  rw [ihv]
                · simp [ihl]

/-! ## `unpackFiles` lemmas -/

theorem unpackFiles_spec (fetch : String → List Nat) (cid : Nat) :
    ∀ (fs : List FileDef) (st : RunSt) (evs : List Ev) (st2 : RunSt) (err : Option Err),
      cid < st.store.length →
      unpackFiles fetch cid fs st = (evs, st2, err) →
      st2.store.length = st.store.length ∧
      (∀ j, j ≠ cid → readScope st2 j = readScope st j) ∧
      readScope st2 cid = overlay (readScope st cid) (boundsOf cid evs) ∧
      (∀ e, e ∈ evs → (∃ n v, e = Ev.bound cid n v) ∨
        (∃ p c2, e = Ev.fileWrite cid p c2) ∨ (∃ e2, e = Ev.failed cid e2)) := by
  intro fs
  induction fs with
  | nil =>
      intro st evs st2 err hcid h
      simp only [unpackFiles, Prod.mk.injEq] at h
      obtain ⟨h1, h2, h3⟩ := h
      subst h1; subst h2; subst h3
      exact ⟨rfl, fun j hj => rfl, by simp [boundsOf, overlay], by simp⟩
  | cons f fs ih =>
      intro st evs st2 err hcid h
      simp only [unpackFiles] at h
      have hrw : readScope ⟨st.store, st.nfiles + 1⟩ cid = readScope st cid := rfl
      cases hfb : fileBytes fetch f with
      | error e =>
          rw [hfb] at h
          simp only [Prod.mk.injEq] at h
          obtain ⟨h1, h2, h3⟩ := h
          subst h1; subst h2; subst h3
          refine ⟨by simp [writeScope], ?_, ?_, by simp⟩
          · intro j hj
            rw [readScope_writeScope_ne _ _ _ _ hj]
            rfl
          · rw [readScope_writeScope_self _ _ _ (by simpa using hcid)]
            simp [boundsOf, overlay, hrw]
      | ok bs =>
          rw [hfb] at h
          generalize hst1 : writeScope ⟨st.store, st.nfiles + 1⟩ cid
            (setVar (readScope st cid) f.name (tmpName st.nfiles)) = st1 at h
          rcases hrec : unpackFiles fetch cid fs st1 with ⟨evsr, st2r, errr⟩
          rw [hrec] at h
          simp only [Prod.mk.injEq] at h
          obtain ⟨h1, h2, h3⟩ := h
          subst h1; subst h2; subst h3
          have hlen1 : st1.store.length = st.store.length := by
            rw [← hst1]; simp [writeScope]
          obtain ⟨ih1, ih2, ih3, ih4⟩ := ih st1 _ _ _ (by omega) hrec
          have hread1 : readScope st1 cid = setVar (readScope st cid) f.name (tmpName st.nfiles) := by
            rw [← hst1]
            rw [readScope_writeScope_self _ _ _ (by simpa using hcid)]
          refine ⟨by omega, ?_, ?_, ?_⟩
          · intro j hj
            rw [ih2 j hj, ← hst1, readScope_writeScope_ne _ _ _ _ hj]
            rfl
          · rw [ih3, hread1]
            simp [boundsOf, overlay]
          · intro e he
            rcases List.mem_cons.mp he with hh | hh
            · exact Or.inl ⟨_, _, hh⟩
            · rcases List.mem_cons.mp hh with hh2 | hh2
              · exact Or.inr (Or.inl ⟨_, _, hh2⟩)
              · exact ih4 e hh2

/-! ## Derived count lemmas -/

theorem countTrigger_eq_zero_of_no_trigger (cid : Nat) (g : String) (evs : List Ev)
    (h : ∀ c g2 σ, Ev.trigger c g2 σ ∉ evs) : countTrigger cid g evs = 0 :=
  countTrigger_eq_zero cid g evs (fun c g2 σ hm => absurd hm (h c g2 σ))

theorem allBound_facts (cid2 : Nat) (evs : List Ev)
    (h : ∀ e, e ∈ evs → ∃ n v, e = Ev.bound cid2 n v) :
    (∀ c g σ, Ev.trigger c g σ ∉ evs) ∧ (∀ c, countOut c evs = 0) := by
  constructor
  · intro c g σ hm
    obtain ⟨n, v, he⟩ := h _ hm
    exact Ev.noConfusion he
  · intro c
    refine countOut_eq_zero c evs (fun c2 l hm => ?_)
    obtain ⟨n, v, he⟩ := h _ hm
    exact Ev.noConfusion he

theorem spawnGroup_facts (parentCid : Nat) (σ : Scope) (kids : List NodeDef)
    (st st2 : RunSt) (evs : List Ev) (ts : List SpawnedTask) (err : Option Err)
    (h : spawnGroup parentCid σ kids st = (st2, evs, ts, err)) :
    (∀ c g σ2, Ev.trigger c g σ2 ∉ evs) ∧ (∀ c, countOut c evs = 0) ∧
    (∀ c, boundsOf c evs = []) := by
  have hcl := spawnGroup_events parentCid σ kids st st2 evs ts err h
  refine ⟨?_, ?_, ?_⟩
  · intro c g σ2 hm
    rcases hcl _ hm with ⟨p, c2, n, i, he⟩ | ⟨e2, he⟩ <;> exact Ev.noConfusion he
  · intro c
    refine countOut_eq_zero c evs (fun c2 l hm => ?_)
    rcases hcl _ hm with ⟨p, c3, n, i, he⟩ | ⟨e2, he⟩ <;> exact Ev.noConfusion he
  · intro c
    refine boundsOf_eq_nil c evs (fun c2 n v hm => ?_)
    rcases hcl _ hm with ⟨p, c3, n2, i, he⟩ | ⟨e2, he⟩ <;> exact Ev.noConfusion he

theorem unpackFiles_facts (fetch : String → List Nat) (cid : Nat)
    (fs : List FileDef) (st : RunSt) (evs : List Ev) (st2 : RunSt) (err : Option Err)
    (hcid : cid < st.store.length)
    (h : unpackFiles fetch cid fs st = (evs, st2, err)) :
    (∀ c g σ2, Ev.trigger c g σ2 ∉ evs) ∧ (∀ c, countOut c evs = 0) := by
  obtain ⟨_, _, _, hcl⟩ := unpackFiles_spec fetch cid fs st evs st2 err hcid h
  refine ⟨?_, ?_⟩
  · intro c g σ2 hm
    rcases hcl _ hm with ⟨n, v, he⟩ | ⟨p, c2, he⟩ | ⟨e2, he⟩ <;> exact Ev.noConfusion he
  · intro c
    refine countOut_eq_zero c evs (fun c2 l hm => ?_)
    rcases hcl _ hm with ⟨n, v, he⟩ | ⟨p, c3, he⟩ | ⟨e2, he⟩ <;> exact Ev.noConfusion he

theorem countTrigger_singleton (cid c : Nat) (g g2 : String) (σ : Scope) :
    countTrigger cid g [Ev.trigger c g2 σ] =
      if c = cid ∧ g2 = g then 1 else 0 := by
  by_cases h1 : c = cid
  · by_cases h2 : g2 = g
    · simp [countTrigger, h1, h2]
    · simp [countTrigger, h1, h2]
  · simp [countTrigger, h1]

/-! ## `procPats` invariant -/

theorem procPats_spec (cid : Nat) (kids : List NodeDef) (line : String) :
    ∀ (pats : List PatternDef) (st : RunSt) (evs : List Ev) (st2 : RunSt)
      (ts : List SpawnedTask) (err : Option Err),
      cid < st.store.length →
      procPats cid kids line pats st = (evs, st2, ts, err) →
      st.store.length ≤ st2.store.length ∧
      (∀ j, j < st.store.length → j ≠ cid → readScope st2 j = readScope st j) ∧
      readScope st2 cid = overlay (readScope st cid) (boundsOf cid evs) ∧
      TriggerSnapsOK cid (readScope st cid) evs ∧
      (∀ t, t ∈ ts → st.store.length ≤ t.cid ∧ t.cid < st2.store.length) ∧
      (∀ c, countOut c evs = 0) ∧
      countTrigger cid "always" evs = 0 ∧
      (err = none → countTrigger cid "on_match" evs =
        (pats.filter (fun p => (reMatch p.regex line.data).isSome)).length) := by
  intro pats
  induction pats with
  | nil =>
      intro st evs st2 ts err hcid h
      simp only [procPats, Prod.mk.injEq] at h
      obtain ⟨h1, h2, h3, h4⟩ := h
      subst h1; subst h2; subst h3; subst h4
      refine ⟨le_refl _, fun j _ _ => rfl, by simp [boundsOf, overlay], ?_, by simp,
        fun c => by simp [countOut], by simp [countTrigger], fun _ => by simp [countTrigger]⟩
      exact snapsOK_of_no_trigger _ _ _ (by simp)
  | cons p ps ih =>
      intro st evs st2 ts err hcid h
      simp only [procPats] at h
      cases hm : reMatch p.regex line.data with
      | none =>
          rw [hm] at h
          obtain ⟨i1, i2, i3, i4, i5, i6, i7, i8⟩ := ih st evs st2 ts err hcid h
          refine ⟨i1, i2, i3, i4, i5, i6, i7, fun hn => ?_⟩
          rw [i8 hn, List.filter_cons]
          simp [hm]
      | some out =>
          obtain ⟨c0, rest0, gs⟩ := out
          simp only [hm] at h
          rcases hbg : bindGroups cid p.groups gs (readScope st cid)
            with ⟨var1, evsB, errB⟩
          simp only [hbg] at h
          obtain ⟨hbg1, hbg2, hbg3⟩ := bindGroups_spec cid p.groups gs _ _ _ _ hbg
          obtain ⟨hbt, hbo⟩ := allBound_facts cid evsB hbg2
          have hwlen : (writeScope st cid var1).store.length = st.store.length :=
            length_writeScope st cid var1
          have hwcid : readScope (writeScope st cid var1) cid = var1 :=
            readScope_writeScope_self st cid var1 hcid
          have hwne : ∀ j, j ≠ cid →
              readScope (writeScope st cid var1) j = readScope st j :=
            fun j hj => readScope_writeScope_ne st cid j var1 hj
          cases errB with
          | some e =>
              simp only [Prod.mk.injEq] at h
              obtain ⟨h1, h2, h3, h4⟩ := h
              subst h1; subst h2; subst h3; subst h4
              refine ⟨by omega, fun j hj hne => hwne j hne, ?_, ?_, by simp,
                ?_, ?_, fun hn => by simp at hn⟩
              · rw [hwcid, boundsOf_append, hbg1]
                simp [boundsOf, overlay]
              · refine snapsOK_of_no_trigger _ _ _ (fun g σ hmem => ?_)
                rcases List.mem_append.mp hmem with hh | hh
                · exact hbt cid g σ hh
                · simp at hh
              · intro c
                rw [countOut_append, hbo c]
                simp [countOut]
              · rw [countTrigger_append,
                  countTrigger_eq_zero_of_no_trigger cid "always" evsB hbt]
                simp [countTrigger]
          | none =>
              have hbn := hbg3 rfl
              rcases hlogsplit : (match p.log with
                | none => (([] : List Ev), (none : Option Err))
                | some tpl =>
                    match resolveTemplate tpl var1 with
                    | .error e => ([], some e)
                    | .ok msg => ([.info cid msg], none)) with ⟨evsLog, errLog⟩
              simp only [hlogsplit] at h
              have hlogkind : (evsLog = [] ∧ errLog = none) ∨
                  (∃ e, evsLog = [] ∧ errLog = some e) ∨
                  (∃ msg, evsLog = [Ev.info cid msg] ∧ errLog = none) := by
                cases hpl : p.log with
                | none =>
                    simp only [hpl, Prod.mk.injEq] at hlogsplit
                    exact Or.inl ⟨hlogsplit.1.symm, hlogsplit.2.symm⟩
                | some tpl =>
                    simp only [hpl] at hlogsplit
                    cases hrt : resolveTemplate tpl var1 with
                    | error e =>
                        simp only [hrt, Prod.mk.injEq] at hlogsplit
                        exact Or.inr (Or.inl ⟨e, hlogsplit.1.symm, hlogsplit.2.symm⟩)
                    | ok msg =>
                        simp only [hrt, Prod.mk.injEq] at hlogsplit
                        exact Or.inr (Or.inr ⟨msg, hlogsplit.1.symm, hlogsplit.2.symm⟩)
              have hlogbounds : boundsOf cid evsLog = [] := by
                rcases hlogkind with ⟨he, _⟩ | ⟨e, he, _⟩ | ⟨msg, he, _⟩ <;>
                  simp [he, boundsOf]
              have hlogtrig : ∀ c g σ2, Ev.trigger c g σ2 ∉ evsLog := by
                rcases hlogkind with ⟨he, _⟩ | ⟨e, he, _⟩ | ⟨msg, he, _⟩ <;>
                  simp [he]
              have hlogout : ∀ c, countOut c evsLog = 0 := by
                rcases hlogkind with ⟨he, _⟩ | ⟨e, he, _⟩ | ⟨msg, he, _⟩ <;>
                  intro c <;> simp [he, countOut]
              cases errLog with
              | some e =>
                  simp only [Prod.mk.injEq] at h
                  obtain ⟨h1, h2, h3, h4⟩ := h
                  subst h1; subst h2; subst h3; subst h4
                  refine ⟨by omega, fun j hj hne => hwne j hne, ?_, ?_, by simp,
                    ?_, ?_, fun hn => by simp at hn⟩
                  · rw [hwcid, boundsOf_append, hbg1]
                    simp [boundsOf, overlay]
                  · refine snapsOK_of_no_trigger _ _ _ (fun g σ hmem => ?_)
                    rcases List.mem_append.mp hmem with hh | hh
                    · exact hbt cid g σ hh
                    · simp at hh
                  · intro c
                    rw [countOut_append, hbo c]
                    simp [countOut]
                  · rw [countTrigger_append,
                      countTrigger_eq_zero_of_no_trigger cid "always" evsB hbt]
                    simp [countTrigger]
              | none =>
                  generalize hst1 : writeScope st cid var1 = st1 at h hwlen hwcid hwne
                  rcases hsp : spawnGroup cid (readScope st1 cid) kids st1
                    with ⟨st2s, evsS, tsS, errS⟩
                  simp only [hsp] at h
                  obtain ⟨hsl, hsn, hsr, hst⟩ :=
                    spawnGroup_spec cid (readScope st1 cid) kids st1 _ _ _ _ hsp
                  obtain ⟨hstr, hsout, hsbnd⟩ :=
                    spawnGroup_facts cid (readScope st1 cid) kids st1 _ _ _ _ hsp
                  have hsnaps1 : TriggerSnapsOK cid (readScope st cid)
                      (evsB ++ evsLog ++ Ev.trigger cid "on_match" (readScope st1 cid) :: evsS) := by
                    rw [List.append_assoc]
                    refine snapsOK_append cid _ evsB _
                      (snapsOK_of_no_trigger _ _ _ (fun g σ => hbt cid g σ)) ?_
                    have hrs1 : readScope st1 cid = overlay (readScope st cid) (boundsOf cid evsB) := by
                      rw [hwcid, hbg1]
                    refine snapsOK_append cid _ evsLog _
                      (snapsOK_of_no_trigger _ _ _ (fun g σ => hlogtrig cid g σ)) ?_
                    rw [hlogbounds, overlay_nil]
                    have : Ev.trigger cid "on_match" (readScope st1 cid) :: evsS =
                        [Ev.trigger cid "on_match" (readScope st1 cid)] ++ evsS := rfl
                    rw [this]
                    refine snapsOK_append cid _ _ evsS ?_
                      (snapsOK_of_no_trigger _ _ _ (by
                        intro g σ2 hmem
                        exact hstr _ g σ2 hmem))
                    rw [← hrs1]
                    exact snapsOK_single_trigger cid (readScope st1 cid) "on_match"
                  have hbounds1 : boundsOf cid
                      (evsB ++ evsLog ++ Ev.trigger cid "on_match" (readScope st1 cid) :: evsS) =
                      boundsOf cid evsB := by
                    rw [List.append_assoc, boundsOf_append, boundsOf_append, hlogbounds]
                    have : Ev.trigger cid "on_match" (readScope st1 cid) :: evsS =
                        [Ev.trigger cid "on_match" (readScope st1 cid)] ++ evsS := rfl
                    rw [this, boundsOf_append, hsbnd cid]
                    simp [boundsOf]
                  cases errS with
                  | some e =>
                      simp only [Prod.mk.injEq] at h
                      obtain ⟨h1, h2, h3, h4⟩ := h
                      subst h1; subst h2; subst h3; subst h4
                      refine ⟨by omega, ?_, ?_, hsnaps1, ?_, ?_, ?_,
                        fun hn => by simp at hn⟩
                      · intro j hj hne
                        rw [hsr j (by omega), hwne j hne]
                      · rw [hbounds1, hsr cid (by omega), hwcid, hbg1]
                      · intro t ht
                        obtain ⟨ha, hb, _⟩ := hst t ht
                        exact ⟨by omega, hb⟩
                      · intro c
                        rw [List.append_assoc, countOut_append, countOut_append, hbo c, hlogout c]
                        have : Ev.trigger cid "on_match" (readScope st1 cid) :: evsS =
                            [Ev.trigger cid "on_match" (readScope st1 cid)] ++ evsS := rfl
                        rw [this, countOut_append, hsout c]
                        simp [countOut]
                      · rw [List.append_assoc, countTrigger_append, countTrigger_append,
                          countTrigger_eq_zero_of_no_trigger cid "always" evsB hbt,
                          countTrigger_eq_zero_of_no_trigger cid "always" evsLog hlogtrig]
                        have : Ev.trigger cid "on_match" (readScope st1 cid) :: evsS =
                            [Ev.trigger cid "on_match" (readScope st1 cid)] ++ evsS := rfl
                        rw [this, countTrigger_append,
                          countTrigger_eq_zero_of_no_trigger cid "always" evsS hstr,
                          countTrigger_singleton]
                        simp
                  | none =>
                      rcases hrec : procPats cid kids line ps st2s
                        with ⟨evsR, st3, tsR, errR⟩
                      simp only [hrec] at h
                      simp only [Prod.mk.injEq] at h
                      obtain ⟨h1, h2, h3, h4⟩ := h
                      subst h1; subst h2; subst h3; subst h4
                      obtain ⟨i1, i2, i3, i4, i5, i6, i7, i8⟩ :=
                        ih st2s _ _ _ _ (by omega) hrec
                      have hr2cid : readScope st2s cid = readScope st1 cid :=
                        hsr cid (by omega)
                      have hrs1 : readScope st1 cid =
                          overlay (readScope st cid) (boundsOf cid evsB) := by
                        rw [hwcid, hbg1]
                      have hA : boundsOf cid
                          (evsB ++ evsLog ++ Ev.trigger cid "on_match" (readScope st1 cid) :: evsS) =
                          boundsOf cid evsB := hbounds1
                      refine ⟨by omega, ?_, ?_, ?_, ?_, ?_, ?_, ?_⟩
                      · intro j hj hne
                        rw [i2 j (by omega) hne, hsr j (by omega), hwne j hne]
                      · rw [boundsOf_append, hA, i3, hr2cid, hrs1, overlay_append]
                      · refine snapsOK_append cid _ _ evsR hsnaps1 ?_
                        rw [hA, ← hrs1, ← hr2cid]
                        exact i4
                      · intro t ht
                        rcases List.mem_append.mp ht with hh | hh
                        · obtain ⟨ha, hb, _⟩ := hst t hh
                          exact ⟨by omega, by omega⟩
                        · obtain ⟨ha, hb⟩ := i5 t hh
                          exact ⟨by omega, hb⟩
                      · intro c
                        rw [countOut_append, i6 c, List.append_assoc, countOut_append,
                          countOut_append, hbo c, hlogout c]
                        have hy : Ev.trigger cid "on_match" (readScope st1 cid) :: evsS =
                            [Ev.trigger cid "on_match" (readScope st1 cid)] ++ evsS := rfl
                        rw [hy, countOut_append, hsout c]
                        simp [countOut]
                      · rw [countTrigger_append, i7, List.append_assoc, countTrigger_append,
                          countTrigger_append,
                          countTrigger_eq_zero_of_no_trigger cid "always" evsB hbt,
                          countTrigger_eq_zero_of_no_trigger cid "always" evsLog hlogtrig]
                        have hy : Ev.trigger cid "on_match" (readScope st1 cid) :: evsS =
                            [Ev.trigger cid "on_match" (readScope st1 cid)] ++ evsS := rfl
                        rw [hy, countTrigger_append,
                          countTrigger_eq_zero_of_no_trigger cid "always" evsS hstr,
                          countTrigger_singleton]
                        simp
                      · intro hn
                        rw [countTrigger_append, i8 hn, List.append_assoc, countTrigger_append,
                          countTrigger_append,
                          countTrigger_eq_zero_of_no_trigger cid "on_match" evsB hbt,
                          countTrigger_eq_zero_of_no_trigger cid "on_match" evsLog hlogtrig]
                        have hy : Ev.trigger cid "on_match" (readScope st1 cid) :: evsS =
                            [Ev.trigger cid "on_match" (readScope st1 cid)] ++ evsS := rfl
                        rw [hy, countTrigger_append,
                          countTrigger_eq_zero_of_no_trigger cid "on_match" evsS hstr,
                          countTrigger_singleton, List.filter_cons]
                        simp [hm]
                        omega

/-! ## `procLines` invariant -/

theorem procLines_spec (cid : Nat) (kids : List NodeDef) (pats : List PatternDef) :
    ∀ (lines : List String) (st : RunSt) (evs : List Ev) (st2 : RunSt)
      (ts : List SpawnedTask) (err : Option Err),
      cid < st.store.length →
      procLines cid kids pats lines st = (evs, st2, ts, err) →
      st.store.length ≤ st2.store.length ∧
      (∀ j, j < st.store.length → j ≠ cid → readScope st2 j = readScope st j) ∧
      readScope st2 cid = overlay (readScope st cid) (boundsOf cid evs) ∧
      TriggerSnapsOK cid (readScope st cid) evs ∧
      (∀ t, t ∈ ts → st.store.length ≤ t.cid ∧ t.cid < st2.store.length) ∧
      countTrigger cid "always" evs = 0 ∧
      (err = none → countOut cid evs = lines.length ∧
        countTrigger cid "on_match" evs = matchCount pats lines) := by
  intro lines
  induction lines with
  | nil =>
      intro st evs st2 ts err hcid h
      simp only [procLines, Prod.mk.injEq] at h
      obtain ⟨h1, h2, h3, h4⟩ := h
      subst h1; subst h2; subst h3; subst h4
      refine ⟨le_refl _, fun j _ _ => rfl, by simp [boundsOf, overlay], ?_, by simp,
        by simp [countTrigger], fun _ => ⟨by simp [countOut], by simp [countTrigger, matchCount]⟩⟩
      exact snapsOK_of_no_trigger _ _ _ (by simp)
  | cons l ls ih =>
      intro st evs st2 ts err hcid h
      simp only [procLines] at h
      rcases hpp : procPats cid kids l pats st with ⟨evsP, st1, tsP, errP⟩
      simp only [hpp] at h
      obtain ⟨p1, p2, p3, p4, p5, p6, p7, p8⟩ := procPats_spec cid kids l pats st _ _ _ _ hcid hpp
      have houtsnap : TriggerSnapsOK cid (readScope st cid) (Ev.outLine cid l :: evsP) := by
        have hx : Ev.outLine cid l :: evsP = [Ev.outLine cid l] ++ evsP := rfl
        rw [hx]
        refine snapsOK_append cid _ _ evsP (snapsOK_of_no_trigger _ _ _ (by simp)) ?_
        simp only [boundsOf, List.filterMap_cons]
        simpa [boundsOf] using p4
      have houtbounds : boundsOf cid (Ev.outLine cid l :: evsP) = boundsOf cid evsP := by
        simp [boundsOf]
      cases errP with
      | some e =>
          simp only [Prod.mk.injEq] at h
          obtain ⟨h1, h2, h3, h4⟩ := h
          subst h1; subst h2; subst h3; subst h4
          refine ⟨p1, p2, ?_, houtsnap, p5, ?_, fun hn => by simp at hn⟩
          · rw [houtbounds, p3]
          · have hx : Ev.outLine cid l :: evsP = [Ev.outLine cid l] ++ evsP := rfl
            rw [hx, countTrigger_append, p7]
            simp [countTrigger]
      | none =>
          rcases hrec : procLines cid kids pats ls st1 with ⟨evsR, st3, tsR, errR⟩
          simp only [hrec] at h
          simp only [Prod.mk.injEq] at h
          obtain ⟨h1, h2, h3, h4⟩ := h
          subst h1; subst h2; subst h3; subst h4
          obtain ⟨i1, i2, i3, i4, i5, i6, i7⟩ := ih st1 _ _ _ _ (by omega) hrec
          have hy : Ev.outLine cid l :: evsP = [Ev.outLine cid l] ++ evsP := rfl
          refine ⟨by omega, ?_, ?_, ?_, ?_, ?_, ?_⟩
          · intro j hj hne
            rw [i2 j (by omega) hne, p2 j hj hne]
          · rw [boundsOf_append, houtbounds, i3, p3, overlay_append]
          · refine snapsOK_append cid _ _ evsR houtsnap ?_
            rw [houtbounds, ← p3]
            exact i4
          · intro t ht
            rcases List.mem_append.mp ht with hh | hh
            · obtain ⟨ha, hb⟩ := p5 t hh
              exact ⟨ha, by omega⟩
            · obtain ⟨ha, hb⟩ := i5 t hh
              exact ⟨by omega, hb⟩
          · rw [countTrigger_append, i6, hy, countTrigger_append, p7]
            simp [countTrigger]
          · intro hn
            obtain ⟨ic, it⟩ := i7 hn
            constructor
            · rw [countOut_append, ic, hy, countOut_append, p6 cid]
              simp [countOut]
              omega
            · rw [countTrigger_append, it, hy, countTrigger_append, p8 rfl]
              simp [countTrigger, matchCount]

/-! ## `runWorker` lemmas -/

theorem runWorker_ok_shape (evalB : String → Bool) (fetch : String → List Nat)
    (oracle : String → List String) (cfg : NodeDef) (cid : Nat) (st : RunSt)
    (evs : List Ev) (st2 : RunSt) (ts : List SpawnedTask)
    (hg : shouldNotRun evalB cfg (readScope st cid) = .ok false)
    (h : runWorker evalB fetch oracle cfg cid st = (evs, st2, ts, none)) :
    ∃ evsF st1 cmd evsL stL tsL evsA tsA,
      unpackFiles fetch cid cfg.files st = (evsF, st1, none) ∧
      resolveTemplate cfg.cmd (readScope st1 cid) = .ok cmd ∧
      procLines cid cfg.onMatch cfg.patterns (oracle cmd) st1 = (evsL, stL, tsL, none) ∧
      spawnGroup cid (readScope stL cid) cfg.always stL = (st2, evsA, tsA, none) ∧
      evs = evsF ++ Ev.exec cid cmd :: evsL ++
        Ev.trigger cid "always" (readScope stL cid) :: evsA ∧
      ts = tsL ++ tsA := by
  simp only [runWorker, hg] at h
  rcases hu : unpackFiles fetch cid cfg.files st with ⟨evsF, st1, errF⟩
  simp only [hu] at h
  cases errF with
  | some e => simp only [Prod.mk.injEq] at h; exact absurd h.2.2.2 (by simp)
  | none =>
      cases hc : resolveTemplate cfg.cmd (readScope st1 cid) with
      | error e =>
          simp only [hc, Prod.mk.injEq] at h
          exact absurd h.2.2.2 (by simp)
      | ok cmd =>
          simp only [hc] at h
          rcases hl : procLines cid cfg.onMatch cfg.patterns (oracle cmd) st1
            with ⟨evsL, stL, tsL, errL⟩
          simp only [hl] at h
          cases errL with
          | some e =>
              simp only [Prod.mk.injEq] at h
              exact absurd h.2.2.2 (by simp)
          | none =>
              rcases hs : spawnGroup cid (readScope stL cid) cfg.always stL
                with ⟨stS, evsA, tsA, errA⟩
              simp only [hs] at h
              simp only [Prod.mk.injEq] at h
              obtain ⟨h1, h2, h3, h4⟩ := h
              subst h2
              subst h4
              exact ⟨evsF, st1, cmd, evsL, stL, tsL, evsA, tsA, rfl, hc, hl, hs,
                h1.symm, h3.symm⟩

theorem runWorker_frame (evalB : String → Bool) (fetch : String → List Nat)
    (oracle : String → List String) (cfg : NodeDef) (cid : Nat) (st : RunSt)
    (evs : List Ev) (st2 : RunSt) (ts : List SpawnedTask) (err : Option Err)
    (hcid : cid < st.store.length)
    (h : runWorker evalB fetch oracle cfg cid st = (evs, st2, ts, err)) :
    st.store.length ≤ st2.store.length ∧
    (∀ j, j < st.store.length → j ≠ cid → readScope st2 j = readScope st j) ∧
    (∀ t, t ∈ ts → st.store.length ≤ t.cid ∧ t.cid < st2.store.length) := by
  simp only [runWorker] at h
  cases hg : shouldNotRun evalB cfg (readScope st cid) with
  | error e =>
      simp only [hg, Prod.mk.injEq] at h
      obtain ⟨h1, h2, h3, h4⟩ := h
      subst h2; subst h3
      exact ⟨le_refl _, fun j _ _ => rfl, by simp⟩
  | ok b =>
      cases b with
      | true =>
          simp only [hg, Prod.mk.injEq] at h
          obtain ⟨h1, h2, h3, h4⟩ := h
          subst h2; subst h3
          exact ⟨le_refl _, fun j _ _ => rfl, by simp⟩
      | false =>
          simp only [hg] at h
          rcases hu : unpackFiles fetch cid cfg.files st with ⟨evsF, st1, errF⟩
          simp only [hu] at h
          obtain ⟨u1, u2, u3, u4⟩ := unpackFiles_spec fetch cid cfg.files st _ _ _ hcid hu
          cases errF with
          | some e =>
              simp only [Prod.mk.injEq] at h
              obtain ⟨h1, h2, h3, h4⟩ := h
              subst h2; subst h3
              exact ⟨by omega, fun j _ hj => u2 j hj, by simp⟩
          | none =>
              cases hc : resolveTemplate cfg.cmd (readScope st1 cid) with
              | error e =>
                  simp only [hc, Prod.mk.injEq] at h
                  obtain ⟨h1, h2, h3, h4⟩ := h
                  subst h2; subst h3
                  exact ⟨by omega, fun j _ hj => u2 j hj, by simp⟩
              | ok cmd =>
                  simp only [hc] at h
                  rcases hl : procLines cid cfg.onMatch cfg.patterns (oracle cmd) st1
                    with ⟨evsL, stL, tsL, errL⟩
                  simp only [hl] at h
                  obtain ⟨l1, l2, l3, l4, l5, l6, l7⟩ :=
                    procLines_spec cid cfg.onMatch cfg.patterns (oracle cmd) st1 _ _ _ _
                      (by omega) hl
                  cases errL with
                  | some e =>
                      simp only [Prod.mk.injEq] at h
                      obtain ⟨h1, h2, h3, h4⟩ := h
                      subst h2; subst h3
                      refine ⟨by omega, ?_, ?_⟩
                      · intro j hj hne
                        rw [l2 j (by omega) hne, u2 j hne]
                      · intro t ht
                        obtain ⟨ha, hb⟩ := l5 t ht
                        exact ⟨by omega, hb⟩
                  | none =>
                      rcases hs : spawnGroup cid (readScope stL cid) cfg.always stL
                        with ⟨stS, evsA, tsA, errA⟩
                      simp only [hs] at h
                      simp only [Prod.mk.injEq] at h
                      obtain ⟨h1, h2, h3, h4⟩ := h
                      subst h2; subst h3
                      obtain ⟨s1, s2, s3, s4⟩ :=
                        spawnGroup_spec cid (readScope stL cid) cfg.always stL _ _ _ _ hs
                      refine ⟨by omega, ?_, ?_⟩
                      · intro j hj hne
                        rw [s3 j (by omega), l2 j (by omega) hne, u2 j hne]
                      · intro t ht
                        rcases List.mem_append.mp ht with hh | hh
                        · obtain ⟨ha, hb⟩ := l5 t hh
                          exact ⟨by omega, by omega⟩
                        · obtain ⟨ha, hb, _⟩ := s4 t hh
                          exact ⟨by omega, hb⟩

/-! ## `runPool` frame lemma -/

theorem runPool_frame (evalB : String → Bool) (fetch : String → List Nat)
    (oracle : String → List String) :
    ∀ (fuel : Nat) (queue : List SpawnedTask) (st : RunSt) (evs : List Ev) (st2 : RunSt),
      runPool evalB fetch oracle fuel queue st = some (evs, st2) →
      (∀ t, t ∈ queue → t.cid < st.store.length) →
      ∀ j, j < st.store.length → (∀ t, t ∈ queue → t.cid ≠ j) →
        readScope st2 j = readScope st j := by
  intro fuel
  induction fuel with
  | zero =>
      intro queue st evs st2 h hq j hj hnq
      cases queue with
      | nil =>
          simp only [runPool, Option.some.injEq, Prod.mk.injEq] at h
          rw [← h.2]
      | cons t rest =>
          simp only [runPool] at h
          exact absurd h (by simp)
  | succ fuel ih =>
      intro queue st evs st2 h hq j hj hnq
      cases queue with
      | nil =>
          simp only [runPool, Option.some.injEq, Prod.mk.injEq] at h
          rw [← h.2]
      | cons t rest =>
          simp only [runPool] at h
          rcases hw : runWorker evalB fetch oracle t.cfg t.cid st
            with ⟨evsW, st1, spw, errW⟩
          simp only [hw] at h
          rcases hr : runPool evalB fetch oracle fuel (rest ++ spw) st1
            with _ | ⟨evs2, st2r⟩
          · rw [hr] at h; exact absurd h (by simp)
          · rw [hr] at h
            simp only [Option.some.injEq, Prod.mk.injEq] at h
            obtain ⟨h1, h2⟩ := h
            subst h2
            obtain ⟨w1, w2, w3⟩ := runWorker_frame evalB fetch oracle t.cfg t.cid st
              _ _ _ _ (hq t (List.mem_cons_self t rest)) hw
            have hq1 : ∀ t2, t2 ∈ rest ++ spw → t2.cid < st1.store.length := by
              intro t2 ht2
              rcases List.mem_append.mp ht2 with hh | hh
              · have := hq t2 (List.mem_cons_of_mem t hh)
                omega
              · exact (w3 t2 hh).2
            have hnq1 : ∀ t2, t2 ∈ rest ++ spw → t2.cid ≠ j := by
              intro t2 ht2
              rcases List.mem_append.mp ht2 with hh | hh
              · exact hnq t2 (List.mem_cons_of_mem t hh)
              · have := (w3 t2 hh).1
                omega
            rw [ih (rest ++ spw) st1 evs2 _ hr hq1 j (by omega) hnq1,
              w2 j hj (fun hh => hnq t (List.mem_cons_self t rest) hh.symm)]

/-! ## Join-model lemmas -/

theorem mem_subForest (ts : List ThreadTree) (s : ThreadTree)
    (h : s ∈ subForest ts) : ∃ t, t ∈ ts ∧ s ∈ subNodes t := by
  induction ts with
  | nil => simp [subForest] at h
  | cons t ts ih =>
      rw [subForest] at h
      rcases List.mem_append.mp h with hh | hh
      · exact ⟨t, List.mem_cons_self t ts, hh⟩
      · obtain ⟨t2, ht2, hs⟩ := ih hh
        exact ⟨t2, List.mem_cons_of_mem t ht2, hs⟩

theorem joinAll_complete :
    ∀ (fuel : Nat) (q visited : List ThreadTree),
      joinAll fuel q = some visited →
      ∀ t, t ∈ q → ∀ s, s ∈ subNodes t → s ∈ visited := by
  intro fuel
  induction fuel with
  | zero =>
      intro q visited h t ht s hs
      cases q with
      | nil => simp at ht
      | cons t0 rest =>
          simp only [joinAll] at h
          exact absurd h (by simp)
  | succ fuel ih =>
      intro q visited h t ht s hs
      cases q with
      | nil => simp at ht
      | cons t0 rest =>
          simp only [joinAll] at h
          rcases hr : joinAll fuel (rest ++ t0.children) with _ | vis2
          · rw [hr] at h; exact absurd h (by simp)
          · rw [hr] at h
            simp only [Option.some.injEq] at h
            subst h
            rcases List.mem_cons.mp ht with hh | hh
            · subst hh
              cases t with
              | node cs =>
                  rw [subNodes] at hs
                  rcases List.mem_cons.mp hs with hh2 | hh2
                  · subst hh2
                    exact List.mem_cons_self _ _
                  · obtain ⟨c, hc, hsc⟩ := mem_subForest cs s hh2
                    refine List.mem_cons_of_mem _ ?_
                    refine ih (rest ++ cs) vis2 hr c ?_ s hsc
                    exact List.mem_append.mpr (Or.inr hc)
            · refine List.mem_cons_of_mem _ ?_
              exact ih (rest ++ t0.children) vis2 hr t
                (List.mem_append.mpr (Or.inl hh)) s hs

/-! ## Claim theorems -/

/-- C1: for every non-skipped node whose run completes without a fatal
error, `run_worker` triggers the `always` submodule group exactly once, and
only after the command's output line sequence has been fully exhausted — the
trace contains exactly one `always` trigger; it comes after the `exec` event
and after all `outLine` events; the number of consumed lines equals the full
length of the command's output; and no hypothesis restricts how many pattern
matches occurred (zero lines and zero matches included). -/
theorem claim_c1_always_once_after_exhaustion
    (evalB : String → Bool) (fetch : String → List Nat) (oracle : String → List String)
    (cfg : NodeDef) (cid : Nat) (st : RunSt) (evs : List Ev) (st2 : RunSt)
    (ts : List SpawnedTask)
    (hg : shouldNotRun evalB cfg (readScope st cid) = .ok false)
    (hcid : cid < st.store.length)
    (h : runWorker evalB fetch oracle cfg cid st = (evs, st2, ts, none)) :
    countTrigger cid "always" evs = 1 ∧
    ∃ pre σ post cmd,
      evs = pre ++ Ev.trigger cid "always" σ :: post ∧
      Ev.exec cid cmd ∈ pre ∧
      countOut cid evs = (oracle cmd).length ∧
      countOut cid post = 0 ∧
      countTrigger cid "always" pre = 0 := by
  obtain ⟨evsF, st1, cmd, evsL, stL, tsL, evsA, tsA, hu, hc, hl, hs, hevs, hts⟩ :=
    runWorker_ok_shape evalB fetch oracle cfg cid st evs st2 ts hg h
  obtain ⟨u1, u2, u3, u4⟩ := unpackFiles_spec fetch cid cfg.files st _ _ _ hcid hu
  obtain ⟨uft, ufo⟩ := unpackFiles_facts fetch cid cfg.files st _ _ _ hcid hu
  obtain ⟨l1, l2, l3, l4, l5, l6, l7⟩ :=
    procLines_spec cid cfg.onMatch cfg.patterns (oracle cmd) st1 _ _ _ _ (by omega) hl
  obtain ⟨sft, sfo, sfb⟩ := spawnGroup_facts cid (readScope stL cid) cfg.always stL _ _ _ _ hs
  obtain ⟨lc, lt⟩ := l7 rfl
  have hB : Ev.exec cid cmd :: evsL = [Ev.exec cid cmd] ++ evsL := rfl
  have hC : Ev.trigger cid "always" (readScope stL cid) :: evsA =
      [Ev.trigger cid "always" (readScope stL cid)] ++ evsA := rfl
  have hpreT : countTrigger cid "always" (evsF ++ Ev.exec cid cmd :: evsL) = 0 := by
    rw [countTrigger_append, countTrigger_eq_zero_of_no_trigger cid "always" evsF uft,
      hB, countTrigger_append, l6]
    simp [countTrigger]
  subst hevs
  constructor
  · rw [countTrigger_append, hpreT, hC, countTrigger_append,
      countTrigger_eq_zero_of_no_trigger cid "always" evsA sft, countTrigger_singleton]
    simp
  · refine ⟨evsF ++ Ev.exec cid cmd :: evsL, readScope stL cid, evsA, cmd,
      rfl, List.mem_append.mpr (Or.inr (List.mem_cons_self _ _)), ?_, sfo cid, hpreT⟩
    rw [countOut_append, countOut_append, ufo cid, hB, countOut_append, hC,
      countOut_append, lc, sfo cid]
    simp [countOut]

/-- C2: for every non-skipped node whose run completes without a fatal
error, the `on_match` submodule group is triggered once per successful
pattern match occurrence (for each output line, once per pattern matching
that line; a pattern matching on several lines triggers once per line), and
every trigger receives the scope as mutated by all bindings — file paths and
captures — made before that trigger, in particular the bindings of the match
that caused it. -/
theorem claim_c2_on_match_per_occurrence
    (evalB : String → Bool) (fetch : String → List Nat) (oracle : String → List String)
    (cfg : NodeDef) (cid : Nat) (st : RunSt) (evs : List Ev) (st2 : RunSt)
    (ts : List SpawnedTask)
    (hg : shouldNotRun evalB cfg (readScope st cid) = .ok false)
    (hcid : cid < st.store.length)
    (h : runWorker evalB fetch oracle cfg cid st = (evs, st2, ts, none)) :
    ∃ cmd, Ev.exec cid cmd ∈ evs ∧
      countTrigger cid "on_match" evs = matchCount cfg.patterns (oracle cmd) ∧
      ∀ pre g σ post, evs = pre ++ Ev.trigger cid g σ :: post →
        ∀ n v, lastBound cid n pre = some v → lookupVar σ n = some v := by
  obtain ⟨evsF, st1, cmd, evsL, stL, tsL, evsA, tsA, hu, hc, hl, hs, hevs, hts⟩ :=
    runWorker_ok_shape evalB fetch oracle cfg cid st evs st2 ts hg h
  obtain ⟨u1, u2, u3, u4⟩ := unpackFiles_spec fetch cid cfg.files st _ _ _ hcid hu
  obtain ⟨uft, ufo⟩ := unpackFiles_facts fetch cid cfg.files st _ _ _ hcid hu
  obtain ⟨l1, l2, l3, l4, l5, l6, l7⟩ :=
    procLines_spec cid cfg.onMatch cfg.patterns (oracle cmd) st1 _ _ _ _ (by omega) hl
  obtain ⟨sft, sfo, sfb⟩ := spawnGroup_facts cid (readScope stL cid) cfg.always stL _ _ _ _ hs
  obtain ⟨lc, lt⟩ := l7 rfl
  have hB : Ev.exec cid cmd :: evsL = [Ev.exec cid cmd] ++ evsL := rfl
  have hC : Ev.trigger cid "always" (readScope stL cid) :: evsA =
      [Ev.trigger cid "always" (readScope stL cid)] ++ evsA := rfl
  have hsnaps : TriggerSnapsOK cid (readScope st cid)
      (evsF ++ Ev.exec cid cmd :: evsL ++
        Ev.trigger cid "always" (readScope stL cid) :: evsA) := by
    refine snapsOK_append cid _ _ _ ?_ ?_
    · refine snapsOK_append cid _ evsF _
        (snapsOK_of_no_trigger _ _ _ (fun g σ => uft cid g σ)) ?_
      rw [hB, ← u3]
      refine snapsOK_append cid _ _ evsL
        (snapsOK_of_no_trigger _ _ _ (by simp)) ?_
      have hbx : boundsOf cid [Ev.exec cid cmd] = [] := by simp [boundsOf]
      rw [hbx, overlay_nil]
      exact l4
    · have hball : boundsOf cid (evsF ++ Ev.exec cid cmd :: evsL) =
          boundsOf cid evsF ++ boundsOf cid evsL := by
        rw [boundsOf_append, hB, boundsOf_append]
        simp [boundsOf]
      rw [hC, hball]
      have hsnap0 : readScope stL cid =
          overlay (readScope st cid) (boundsOf cid evsF ++ boundsOf cid evsL) := by
        rw [overlay_append, ← u3, l3]
      refine snapsOK_append cid _ _ evsA ?_
        (snapsOK_of_no_trigger _ _ _ (fun g σ => sft cid g σ))
      rw [← hsnap0]
      exact snapsOK_single_trigger cid (readScope stL cid) "always"
  subst hevs
  refine ⟨cmd, List.mem_append.mpr (Or.inl (List.mem_append.mpr
    (Or.inr (List.mem_cons_self _ _)))), ?_, ?_⟩
  · rw [countTrigger_append, countTrigger_append,
      countTrigger_eq_zero_of_no_trigger cid "on_match" evsF uft,
      hB, countTrigger_append, hC, countTrigger_append,
      countTrigger_eq_zero_of_no_trigger cid "on_match" evsA sft,
      countTrigger_singleton, lt]
    simp [countTrigger]
  · intro pre g σ post heq n v hlast
    have hσ := hsnaps pre g σ post heq
    rw [hσ, lookupVar_overlay]
    rw [lastBound] at hlast
    rw [hlast]

/-- C3: for every node, if the `enabled` flag is present and false, or the
resolved `condition` expression evaluates falsy, the node is skipped — the
run produces only the skip event, no file is provisioned, no command is
spawned, no submodule group (`on_match` or `always`) is triggered, and the
store is untouched; if `enabled` is absent or true and the condition is
absent or evaluates truthy (and the pre-spawn steps resolve), the command is
spawned. -/
theorem claim_c3_gate
    (evalB : String → Bool) (fetch : String → List Nat) (oracle : String → List String)
    (cfg : NodeDef) (cid : Nat) (st : RunSt) :
    (cfg.enabled = some false →
       runWorker evalB fetch oracle cfg cid st = ([Ev.skipped cid], st, [], none)) ∧
    (∀ t c, cfg.enabled ≠ some false → cfg.condition = some t →
       resolveTemplate t (readScope st cid) = .ok c → evalB c = false →
       runWorker evalB fetch oracle cfg cid st = ([Ev.skipped cid], st, [], none)) ∧
    (∀ evsF st1 cmd, cfg.enabled ≠ some false →
       (cfg.condition = none ∨ ∃ t c, cfg.condition = some t ∧
          resolveTemplate t (readScope st cid) = .ok c ∧ evalB c = true) →
       unpackFiles fetch cid cfg.files st = (evsF, st1, none) →
       resolveTemplate cfg.cmd (readScope st1 cid) = .ok cmd →
       Ev.exec cid cmd ∈ (runWorker evalB fetch oracle cfg cid st).1) := by
  refine ⟨?_, ?_, ?_⟩
  · intro he
    have hg : shouldNotRun evalB cfg (readScope st cid) = .ok true := by
      simp [shouldNotRun, he]
    simp [runWorker, hg]
  · intro t c he ht hres hev
    have hg : shouldNotRun evalB cfg (readScope st cid) = .ok true := by
      cases hen : cfg.enabled with
      | none => simp [shouldNotRun, hen, ht, hres, hev]
      | some b =>
          cases b with
          | false => exact absurd hen he
          | true => simp [shouldNotRun, hen, ht, hres, hev]
    simp [runWorker, hg]
  · intro evsF st1 cmd he hcond hu hc
    have hg : shouldNotRun evalB cfg (readScope st cid) = .ok false := by
      rcases hcond with hcn | ⟨t, c, ht, hres, hev⟩
      · cases hen : cfg.enabled with
        | none => simp [shouldNotRun, hen, hcn]
        | some b =>
            cases b with
            | false => exact absurd hen he
            | true => simp [shouldNotRun, hen, hcn]
      · cases hen : cfg.enabled with
        | none => simp [shouldNotRun, hen, ht, hres, hev]
        | some b =>
            cases b with
            | false => exact absurd hen he
            | true => simp [shouldNotRun, hen, ht, hres, hev]
    simp only [runWorker, hg, hu, hc]
    rcases hl : procLines cid cfg.onMatch cfg.patterns (oracle cmd) st1
      with ⟨evsL, stL, tsL, errL⟩
    simp only [hl]
    cases errL with
    | some e =>
        exact List.mem_append.mpr (Or.inr (List.mem_cons_self _ _))
    | none =>
        exact List.mem_append.mpr (Or.inl (List.mem_append.mpr
          (Or.inr (List.mem_cons_self _ _))))

/-- C4: a child module's scope is created at the moment of triggering by
copying the parent's current scope into a fresh cell and overlaying the
child's declared variables, with declared values winning over inherited ones
of the same name; a binding already present in the parent's scope at the
trigger (such as a capture) is visible in the child's initial scope unless
shadowed; and scope mutation is confined to the mutating module's own cell —
`run_worker` never changes any other existing cell, and a completed drain of
the pool leaves every cell not owned by a queued task (in particular the
parent's and those of sibling branches) unchanged. -/
theorem claim_c4_scope_copy_isolation :
    (∀ (p : Scope) (vs : List (String × String)) (k : String),
       lookupVar (initScope p vs) k =
         match lastDecl vs k with
         | some v => some v
         | none => lookupVar p k) ∧
    (∀ (parentCid : Nat) (σ : Scope) (kids : List NodeDef) (st st2 : RunSt)
       (evs : List Ev) (ts : List SpawnedTask) (err : Option Err),
       spawnGroup parentCid σ kids st = (st2, evs, ts, err) →
       ∀ t, t ∈ ts → readScope st2 t.cid = initScope σ t.cfg.vars ∧
         ∀ n v, lookupVar σ n = some v → lastDecl t.cfg.vars n = none →
           lookupVar (readScope st2 t.cid) n = some v) ∧
    (∀ (evalB : String → Bool) (fetch : String → List Nat)
       (oracle : String → List String) (cfg : NodeDef) (cid : Nat) (st : RunSt)
       (evs : List Ev) (st2 : RunSt) (ts : List SpawnedTask) (err : Option Err),
       cid < st.store.length →
       runWorker evalB fetch oracle cfg cid st = (evs, st2, ts, err) →
       ∀ j, j < st.store.length → j ≠ cid → readScope st2 j = readScope st j) ∧
    (∀ (evalB : String → Bool) (fetch : String → List Nat)
       (oracle : String → List String) (fuel : Nat) (queue : List SpawnedTask)
       (st : RunSt) (evs : List Ev) (st2 : RunSt),
       runPool evalB fetch oracle fuel queue st = some (evs, st2) →
       (∀ t, t ∈ queue → t.cid < st.store.length) →
       ∀ j, j < st.store.length → (∀ t, t ∈ queue → t.cid ≠ j) →
         readScope st2 j = readScope st j) := by
  refine ⟨?_, ?_, ?_, ?_⟩
  · intro p vs k
    exact lookupVar_overlay vs p k
  · intro parentCid σ kids st st2 evs ts err hsp t ht
    obtain ⟨_, _, _, h4⟩ := spawnGroup_spec parentCid σ kids st st2 evs ts err hsp
    obtain ⟨_, _, hrd⟩ := h4 t ht
    refine ⟨hrd, fun n v hl hd => ?_⟩
    rw [hrd, initScope, lookupVar_overlay, hd]
    exact hl
  · intro evalB fetch oracle cfg cid st evs st2 ts err hcid h
    exact (runWorker_frame evalB fetch oracle cfg cid st evs st2 ts err hcid h).2.1
  · intro evalB fetch oracle fuel queue st evs st2 h hq j hj hnq
    exact runPool_frame evalB fetch oracle fuel queue st evs st2 h hq j hj hnq

/-- C5: a compiled pattern is tested at the start of the output line and is
not required to span the whole line — whenever `reMatch` succeeds, the line
equals the consumed prefix followed by the untouched remainder — and on a
match the capture-binding loop binds, under the resolved capture-variable
names, exactly the first N positional group texts in order (N the number of
declared groups), writing them into the scope. -/
theorem claim_c5_match_at_start_positional :
    (∀ (r : Regex) (s c s1 : List Char) (g : List String),
       reMatch r s = some (c, s1, g) → s = c ++ s1) ∧
    (∀ (cid : Nat) (gts txts : List String) (var var2 : Scope) (evs : List Ev),
       bindGroups cid gts txts var = (var2, evs, none) →
       boundVals evs = txts.take gts.length ∧
       evs.length = gts.length ∧
       var2 = overlay var (boundsOf cid evs)) := by
  refine ⟨reMatch_consumes, ?_⟩
  intro cid gts txts var var2 evs h
  obtain ⟨h1, h2, h3⟩ := bindGroups_spec cid gts txts var var2 evs none h
  obtain ⟨hv, hl⟩ := h3 rfl
  exact ⟨hv, hl, h1⟩

/-- C6 counterexample: a node whose single pattern matches the first output
line but whose capture-variable-name template `{missing}` cannot be resolved
dies mid-stream with `KeyError`, and its nonempty `always` group is NOT
triggered — `run_worker` has no handler, so the uncaught exception skips the
`run_submodules("always", ...)` call, contradicting the claim that `always`
still fires after the output loop ends for any reason. -/
theorem claim_c6_counterexample :
    (runWorker (fun _ => true) (fun _ => []) (fun _ => ["f\n"]) midErrCfg 0
      ⟨[[]], 0⟩).2.2.2 = some (Err.unresolved "missing") ∧
    countTrigger 0 "always"
      (runWorker (fun _ => true) (fun _ => []) (fun _ => ["f\n"]) midErrCfg 0
        ⟨[[]], 0⟩).1 = 0 ∧
    midErrCfg.always.length = 1 :=
  ⟨rfl, rfl, rfl⟩

/-- C6 (amended): for a non-skipped node, a fatal mid-stream error — an
uncaught exception raised while consuming the output lines, such as an
unresolved variable during capture binding — propagates out of `run_worker`,
so the `always` submodule group is NOT triggered: the trace is cut at the
error and contains no `always` trigger. -/
theorem claim_c6_midstream_error_skips_always
    (evalB : String → Bool) (fetch : String → List Nat) (oracle : String → List String)
    (cfg : NodeDef) (cid : Nat) (st : RunSt) (evsF : List Ev) (st1 : RunSt)
    (cmd : String) (evsL : List Ev) (stL : RunSt) (tsL : List SpawnedTask) (e : Err)
    (hcid : cid < st.store.length)
    (hg : shouldNotRun evalB cfg (readScope st cid) = .ok false)
    (hu : unpackFiles fetch cid cfg.files st = (evsF, st1, none))
    (hc : resolveTemplate cfg.cmd (readScope st1 cid) = .ok cmd)
    (hl : procLines cid cfg.onMatch cfg.patterns (oracle cmd) st1 = (evsL, stL, tsL, some e)) :
    runWorker evalB fetch oracle cfg cid st =
      (evsF ++ Ev.exec cid cmd :: evsL, stL, tsL, some e) ∧
    countTrigger cid "always" (evsF ++ Ev.exec cid cmd :: evsL) = 0 := by
  obtain ⟨u1, u2, u3, u4⟩ := unpackFiles_spec fetch cid cfg.files st _ _ _ hcid hu
  obtain ⟨uft, ufo⟩ := unpackFiles_facts fetch cid cfg.files st _ _ _ hcid hu
  obtain ⟨l1, l2, l3, l4, l5, l6, l7⟩ :=
    procLines_spec cid cfg.onMatch cfg.patterns (oracle cmd) st1 _ _ _ _ (by omega) hl
  constructor
  · simp only [runWorker, hg, hu, hc, hl]
  · have hB : Ev.exec cid cmd :: evsL = [Ev.exec cid cmd] ++ evsL := rfl
    rw [countTrigger_append, countTrigger_eq_zero_of_no_trigger cid "always" evsF uft,
      hB, countTrigger_append, l6]
    simp [countTrigger]

/-- C7: the join loop of `wait_until_complete` visits every transitively
spawned thread: when the loop drains the pool, each thread that was in the
pool — and every thread in its spawn tree, including ones its descendants
registered only after the wait began — has been joined. -/
theorem claim_c7_join_waits_for_all
    (fuel : Nat) (pool visited : List ThreadTree)
    (h : joinAll fuel pool = some visited) :
    ∀ t, t ∈ pool → ∀ s, s ∈ subNodes t → s ∈ visited :=
  joinAll_complete fuel pool visited h

/-- C8 counterexample: a `text` file whose literal content is the template
`"{var1}"`, provisioned in a scope where `var1 = "foo"`, is written as the
raw bytes of the string `"{var1}"` — not as the bytes of the resolved value
`"foo"`, although the template resolver would have produced it — refuting
the claim that file content is first resolved via template substitution. -/
theorem claim_c8_counterexample :
    unpackFiles (fun _ => []) 0 [⟨"f1", "text", "{var1}"⟩] ⟨[[("var1", "foo")]], 0⟩ =
      ([Ev.bound 0 "f1" "/tmp/pwnchain0",
        Ev.fileWrite 0 "/tmp/pwnchain0" (strBytes "{var1}")],
       ⟨[[("var1", "foo"), ("f1", "/tmp/pwnchain0")]], 1⟩, none) ∧
    resolveTemplate "{var1}" [("var1", "foo")] = .ok "foo" ∧
    strBytes "{var1}" ≠ strBytes "foo" :=
  ⟨rfl, rfl, by decide⟩

/-- C8 (amended): for every file definition, the content is written verbatim
without template substitution — the raw encoded bytes of the literal content
for `text`, the base64-decoded bytes of the literal content for `base64` —
and the ephemeral file's path is bound into the scope under the declared
variable name before the command template is resolved: the scope after
`unpack_files` is the scope before it overlaid with the path bindings, and
`run_worker` resolves the command against exactly that scope, emitting its
events after the file events. -/
theorem claim_c8_content_verbatim_path_bound_first :
    (∀ (fetch : String → List Nat) (cid : Nat) (name content : String) (st : RunSt),
       unpackFiles fetch cid [⟨name, "text", content⟩] st =
         ([Ev.bound cid name (tmpName st.nfiles),
           Ev.fileWrite cid (tmpName st.nfiles) (strBytes content)],
          writeScope ⟨st.store, st.nfiles + 1⟩ cid
            (setVar (readScope st cid) name (tmpName st.nfiles)), none)) ∧
    (∀ (fetch : String → List Nat) (cid : Nat) (name content : String)
       (bs : List Nat) (st : RunSt), b64decode content = some bs →
       unpackFiles fetch cid [⟨name, "base64", content⟩] st =
         ([Ev.bound cid name (tmpName st.nfiles),
           Ev.fileWrite cid (tmpName st.nfiles) bs],
          writeScope ⟨st.store, st.nfiles + 1⟩ cid
            (setVar (readScope st cid) name (tmpName st.nfiles)), none)) ∧
    (∀ (fetch : String → List Nat) (cid : Nat) (fs : List FileDef) (st : RunSt)
       (evs : List Ev) (st1 : RunSt), cid < st.store.length →
       unpackFiles fetch cid fs st = (evs, st1, none) →
       readScope st1 cid = overlay (readScope st cid) (boundsOf cid evs)) ∧
    (∀ (evalB : String → Bool) (fetch : String → List Nat)
       (oracle : String → List String) (cfg : NodeDef) (cid : Nat) (st : RunSt)
       (evsF : List Ev) (st1 : RunSt) (cmd : String),
       shouldNotRun evalB cfg (readScope st cid) = .ok false →
       unpackFiles fetch cid cfg.files st = (evsF, st1, none) →
       resolveTemplate cfg.cmd (readScope st1 cid) = .ok cmd →
       ∃ rest, (runWorker evalB fetch oracle cfg cid st).1 =
         evsF ++ Ev.exec cid cmd :: rest) := by
  refine ⟨?_, ?_, ?_, ?_⟩
  · intro fetch cid name content st
    rfl
  · intro fetch cid name content bs st hb
    simp [unpackFiles, fileBytes, hb]
  · intro fetch cid fs st evs st1 hcid hu
    exact (unpackFiles_spec fetch cid fs st evs st1 none hcid hu).2.2.1
  · intro evalB fetch oracle cfg cid st evsF st1 cmd hg hu hc
    simp only [runWorker, hg, hu, hc]
    rcases hl : procLines cid cfg.onMatch cfg.patterns (oracle cmd) st1
      with ⟨evsL, stL, tsL, errL⟩
    simp only [hl]
    cases errL with
    | some e => exact ⟨evsL, rfl⟩
    | none =>
        rcases hs : spawnGroup cid (readScope stL cid) cfg.always stL
          with ⟨stS, evsA, tsA, errA⟩
        simp only [hs]
        exact ⟨evsL ++ Ev.trigger cid "always" (readScope stL cid) :: evsA, by simp⟩

/-- C9 counterexample: a file definition whose type is the interface name
`"remote"` is not handled by `unpack_files` — the ephemeral file is created
and its path bound, but nothing is fetched and nothing is written (the file
stays empty), even though the fetcher would have returned bytes for the
URL — refuting the claim that the remote kind is named `remote`. -/
theorem claim_c9_counterexample :
    unpackFiles (fun _ => [42]) 0 [⟨"f", "remote", "u"⟩] ⟨[[]], 0⟩ =
      ([Ev.bound 0 "f" "/tmp/pwnchain0", Ev.fileWrite 0 "/tmp/pwnchain0" []],
       ⟨[[("f", "/tmp/pwnchain0")]], 1⟩, none) ∧
    (fun (_ : String) => [42]) "u" = [42] ∧
    ([] : List Nat) ≠ [42] :=
  ⟨rfl, rfl, by decide⟩

/-- C9 (amended): the remote content kind is named `wget` in the code: for a
file definition of type `wget` the provisioner writes exactly the bytes
fetched from the given URL, while the interface name `remote` falls through
the type dispatch and produces an empty file. -/
theorem claim_c9_remote_kind_is_wget :
    (∀ (fetch : String → List Nat) (name url : String),
       fileBytes fetch ⟨name, "wget", url⟩ = .ok (fetch url)) ∧
    (∀ (fetch : String → List Nat) (name url : String),
       fileBytes fetch ⟨name, "remote", url⟩ = .ok []) ∧
    (∀ (fetch : String → List Nat) (cid : Nat) (name url : String) (st : RunSt),
       unpackFiles fetch cid [⟨name, "wget", url⟩] st =
         ([Ev.bound cid name (tmpName st.nfiles),
           Ev.fileWrite cid (tmpName st.nfiles) (fetch url)],
          writeScope ⟨st.store, st.nfiles + 1⟩ cid
            (setVar (readScope st cid) name (tmpName st.nfiles)), none)) := by
  refine ⟨fun fetch name url => rfl, fun fetch name url => rfl, fun fetch cid name url st => rfl⟩

/-- C10: for every file definition whose type is none of the handled kinds
(`text`, `base64`, `wget`), file provisioning still creates an ephemeral
file, writes nothing to it (it stays empty), binds its path into the scope
under the declared variable name, and raises no error. -/
theorem claim_c10_unknown_type_empty_file
    (fetch : String → List Nat) (cid : Nat) (name ty content : String) (st : RunSt)
    (h1 : ty ≠ "text") (h2 : ty ≠ "base64") (h3 : ty ≠ "wget") :
    unpackFiles fetch cid [⟨name, ty, content⟩] st =
      ([Ev.bound cid name (tmpName st.nfiles),
        Ev.fileWrite cid (tmpName st.nfiles) []],
       writeScope ⟨st.store, st.nfiles + 1⟩ cid
         (setVar (readScope st cid) name (tmpName st.nfiles)), none) := by
  simp [unpackFiles, fileBytes, h1, h2, h3]

/-! ## Witnesses -/

/-- Witness for C1 at the repository's unit-test fixture: the root run is
not skipped and completes without error, and its trace triggers `always`
exactly once. -/
theorem claim_c1_witness :
    shouldNotRun (fun _ => true) exCfg (readScope ⟨[[("var1", "foo")]], 0⟩ 0) = .ok false ∧
    (0 : Nat) < (⟨[[("var1", "foo")]], 0⟩ : RunSt).store.length ∧
    countTrigger 0 "always"
      (runWorker (fun _ => true) (fun _ => []) exOracle exCfg 0
        ⟨[[("var1", "foo")]], 0⟩).1 = 1 :=
  ⟨rfl, by decide,
   (claim_c1_always_once_after_exhaustion (fun _ => true) (fun _ => []) exOracle exCfg 0
      ⟨[[("var1", "foo")]], 0⟩ _ _ _ rfl (by decide) rfl).1⟩

/-- Witness for C2 at the repository's unit-test fixture: one match
occurrence on the single output line yields one `on_match` trigger, and
every trigger snapshot reflects the bindings made before it. -/
theorem claim_c2_witness :
    ∃ cmd, Ev.exec 0 cmd ∈
        (runWorker (fun _ => true) (fun _ => []) exOracle exCfg 0
          ⟨[[("var1", "foo")]], 0⟩).1 ∧
      countTrigger 0 "on_match"
        (runWorker (fun _ => true) (fun _ => []) exOracle exCfg 0
          ⟨[[("var1", "foo")]], 0⟩).1 = matchCount exCfg.patterns (exOracle cmd) ∧
      ∀ pre g σ post,
        (runWorker (fun _ => true) (fun _ => []) exOracle exCfg 0
          ⟨[[("var1", "foo")]], 0⟩).1 = pre ++ Ev.trigger 0 g σ :: post →
        ∀ n v, lastBound 0 n pre = some v → lookupVar σ n = some v :=
  claim_c2_on_match_per_occurrence (fun _ => true) (fun _ => []) exOracle exCfg 0
    ⟨[[("var1", "foo")]], 0⟩ _ _ _ rfl (by decide) rfl

/-- Witness for C3: a disabled node and a false-condition node are skipped
untouched; an enabled node with a true condition spawns its command. -/
theorem claim_c3_witness :
    runWorker (fun s => s == "True") (fun _ => []) (fun _ => [])
        (.mk "n" "c" [] (some false) none [] [] [] []) 0 ⟨[[]], 0⟩ =
      ([Ev.skipped 0], ⟨[[]], 0⟩, [], none) ∧
    runWorker (fun s => s == "True") (fun _ => []) (fun _ => [])
        (.mk "n" "c" [] none (some "False") [] [] [] []) 0 ⟨[[]], 0⟩ =
      ([Ev.skipped 0], ⟨[[]], 0⟩, [], none) ∧
    Ev.exec 0 "c" ∈ (runWorker (fun s => s == "True") (fun _ => []) (fun _ => [])
        (.mk "n" "c" [] (some true) (some "True") [] [] [] []) 0 ⟨[[]], 0⟩).1 :=
  ⟨(claim_c3_gate (fun s => s == "True") (fun _ => []) (fun _ => [])
      (.mk "n" "c" [] (some false) none [] [] [] []) 0 ⟨[[]], 0⟩).1 rfl,
   (claim_c3_gate (fun s => s == "True") (fun _ => []) (fun _ => [])
      (.mk "n" "c" [] none (some "False") [] [] [] []) 0 ⟨[[]], 0⟩).2.1
     "False" "False" (by decide) rfl rfl rfl,
   (claim_c3_gate (fun s => s == "True") (fun _ => []) (fun _ => [])
      (.mk "n" "c" [] (some true) (some "True") [] [] [] []) 0 ⟨[[]], 0⟩).2.2
     [] ⟨[[]], 0⟩ "c" (by decide) (Or.inr ⟨"True", "True", rfl, rfl, rfl⟩) rfl rfl⟩

/-- Witness for C4: declared variables win over inherited ones, inherited
ones survive, and running the fixture tree leaves an unrelated scope cell
untouched, for a single worker and for a drained pool alike. -/
theorem claim_c4_witness :
    lookupVar (initScope [("a", "1"), ("b", "2")] [("b", "3")]) "b" = some "3" ∧
    lookupVar (initScope [("a", "1"), ("b", "2")] [("b", "3")]) "a" = some "1" ∧
    readScope (runWorker (fun _ => true) (fun _ => []) exOracle exCfg 0
        ⟨[[("var1", "foo")], [("x", "y")]], 0⟩).2.1 1 =
      readScope ⟨[[("var1", "foo")], [("x", "y")]], 0⟩ 1 ∧
    readScope ((runPool (fun _ => true) (fun _ => []) exOracle 10 [⟨exCfg, 0⟩]
        ⟨[[("var1", "foo")], [("x", "y")]], 0⟩).getD ([], ⟨[], 0⟩)).2 1 =
      readScope ⟨[[("var1", "foo")], [("x", "y")]], 0⟩ 1 :=
  ⟨claim_c4_scope_copy_isolation.1 [("a", "1"), ("b", "2")] [("b", "3")] "b",
   claim_c4_scope_copy_isolation.1 [("a", "1"), ("b", "2")] [("b", "3")] "a",
   claim_c4_scope_copy_isolation.2.2.1 (fun _ => true) (fun _ => []) exOracle exCfg 0
     ⟨[[("var1", "foo")], [("x", "y")]], 0⟩ _ _ _ _ (by decide) rfl 1 (by decide) (by decide),
   claim_c4_scope_copy_isolation.2.2.2 (fun _ => true) (fun _ => []) exOracle 10
     [⟨exCfg, 0⟩] ⟨[[("var1", "foo")], [("x", "y")]], 0⟩ _ _ rfl
     (by intro t ht; simp at ht; subst ht; decide) 1 (by decide)
     (by intro t ht; simp at ht; subst ht; decide)⟩

/-- Witness for C5: the test pattern `(fo)o` matched against the line
`"foo\n"` consumes the prefix `foo`, leaves the newline unconsumed, and the
binding loop binds the configured variable `var2` to the group text `fo`. -/
theorem claim_c5_witness :
    ("foo\n".data = ['f', 'o', 'o'] ++ ['\n']) ∧
    reMatch reFoo ("foo\n".data) = some (['f', 'o', 'o'], ['\n'], ["fo"]) ∧
    bindGroups 0 ["var2"] ["fo"] [("var1", "foo")] =
      ([("var1", "foo"), ("var2", "fo")], [Ev.bound 0 "var2" "fo"], none) ∧
    boundVals [Ev.bound 0 "var2" "fo"] = List.take 1 ["fo"] :=
  ⟨claim_c5_match_at_start_positional.1 reFoo _ _ _ _ rfl, rfl, rfl,
   (claim_c5_match_at_start_positional.2 0 ["var2"] ["fo"] [("var1", "foo")] _ _ rfl).1⟩

/-- Witness for the amended C6 at the concrete mid-stream-error fixture. -/
theorem claim_c6_witness :
    runWorker (fun _ => true) (fun _ => []) (fun _ => ["f\n"]) midErrCfg 0 ⟨[[]], 0⟩ =
      ([] ++ Ev.exec 0 "c" ::
        [Ev.outLine 0 "f\n", Ev.failed 0 (Err.unresolved "missing")],
       ⟨[[]], 0⟩, [], some (Err.unresolved "missing")) ∧
    countTrigger 0 "always"
      ([] ++ Ev.exec 0 "c" ::
        [Ev.outLine 0 "f\n", Ev.failed 0 (Err.unresolved "missing")]) = 0 :=
  claim_c6_midstream_error_skips_always (fun _ => true) (fun _ => []) (fun _ => ["f\n"])
    midErrCfg 0 ⟨[[]], 0⟩ [] ⟨[[]], 0⟩ "c"
    [Ev.outLine 0 "f\n", Ev.failed 0 (Err.unresolved "missing")] ⟨[[]], 0⟩ []
    (Err.unresolved "missing") (by decide) rfl rfl rfl rfl

/-- Witness for C7: joining a two-level spawn tree visits the grandchild
registered by the child after the wait began. -/
theorem claim_c7_witness :
    joinAll 3 [ThreadTree.node [ThreadTree.node []]] =
      some [ThreadTree.node [ThreadTree.node []], ThreadTree.node []] ∧
    ThreadTree.node [] ∈ [ThreadTree.node [ThreadTree.node []], ThreadTree.node []] :=
  ⟨rfl, claim_c7_join_waits_for_all 3 [ThreadTree.node [ThreadTree.node []]] _ rfl
     (ThreadTree.node [ThreadTree.node []]) (List.mem_cons_self _ _)
     (ThreadTree.node []) (by simp [subNodes, subForest])⟩

/-- Witness for the amended C8: a base64 file is written as the decoded
bytes of its literal content, the binding lands in the scope, and the
command is resolved against the post-provisioning scope. -/
theorem claim_c8_witness :
    unpackFiles (fun _ => []) 0 [⟨"f2", "base64", "Zm8="⟩] ⟨[[]], 0⟩ =
      ([Ev.bound 0 "f2" (tmpName 0), Ev.fileWrite 0 (tmpName 0) [102, 111]],
       writeScope ⟨[[]], 1⟩ 0 (setVar [] "f2" (tmpName 0)), none) ∧
    readScope (writeScope ⟨[[]], 1⟩ 0 (setVar [] "f2" (tmpName 0))) 0 =
      overlay [] (boundsOf 0 [Ev.bound 0 "f2" (tmpName 0),
        Ev.fileWrite 0 (tmpName 0) [102, 111]]) ∧
    (∃ rest, (runWorker (fun _ => true) (fun _ => []) (fun _ => [])
        (.mk "n" "c" [] none none [] [⟨"f2", "base64", "Zm8="⟩] [] []) 0
        ⟨[[]], 0⟩).1 =
      [Ev.bound 0 "f2" (tmpName 0), Ev.fileWrite 0 (tmpName 0) [102, 111]] ++
        Ev.exec 0 "c" :: rest) :=
  ⟨claim_c8_content_verbatim_path_bound_first.2.1 (fun _ => []) 0 "f2" "Zm8="
     [102, 111] ⟨[[]], 0⟩ rfl,
   claim_c8_content_verbatim_path_bound_first.2.2.1 (fun _ => []) 0
     [⟨"f2", "base64", "Zm8="⟩] ⟨[[]], 0⟩ _ _ (by decide) rfl,
   claim_c8_content_verbatim_path_bound_first.2.2.2 (fun _ => true) (fun _ => [])
     (fun _ => []) (.mk "n" "c" [] none none [] [⟨"f2", "base64", "Zm8="⟩] [] []) 0
     ⟨[[]], 0⟩ _ _ "c" rfl rfl rfl⟩

/-- Witness for C10 at an unhandled file type. -/
theorem claim_c10_witness :
    unpackFiles (fun _ => []) 0 [⟨"f", "unknown", "zzz"⟩] ⟨[[]], 0⟩ =
      ([Ev.bound 0 "f" (tmpName 0), Ev.fileWrite 0 (tmpName 0) []],
       writeScope ⟨[[]], 1⟩ 0 (setVar [] "f" (tmpName 0)), none) :=
  claim_c10_unknown_type_empty_file (fun _ => []) 0 "f" "unknown" "zzz" ⟨[[]], 0⟩
    (by decide) (by decide) (by decide)
